import Mathlib

/-!
Verification of the `FileSystem` storage manager
(`src/FileSystem/FileSystem.py`) against its specification.

Modelling conventions (shallow embedding):

* Python `str` values are modelled as `List Char` (`Str`); Python `bytes`
  values as `List Nat` (each element one byte).
* Text-mode file writes store the UTF-8 encoding of the string; text-mode
  reads decode UTF-8.  The codec `utf8EncodeChar` / `utf8Decode` below
  implements standard UTF-8.  (Universal-newline translation of text mode
  and Unicode-aware `str.lower()` are not modelled; the model's `lower`
  is ASCII case folding, which covers every name the code compares.)
* Absolute filesystem paths are segment lists (`FsPath`); `os.path.join`
  is `joinPath`, and the operating system's resolution of `.`, `..` and
  empty segments at access time is `resolve`.
* The on-disk state is `Disk`: a flat association of file paths to byte
  contents, a set of existing directories, and a set of `faults` - paths
  on which primitive operations raise an `OSError`-like exception, used
  to model I/O failures (permissions, disk errors).
* `cryptography.fernet.Fernet` is modelled by the `Cipher` interface:
  an encryption function whose ciphertext is ASCII (Fernet tokens are
  base64url text) and a decryption function that inverts it.
* Python's `json` module is modelled by a concrete injective serializer
  `jsonDumps` and parser `jsonLoads` over the JSON data model `Json`,
  proved to satisfy `jsonLoads (jsonDumps v) = some v`.  The exact
  indented textual format of `json.dumps(v, indent=4)` is not
  reproduced; the code's behaviour depends only on the round-trip
  property and on the leading character of the output (which, as in
  Python, is never `E`).
* Exceptions are modelled with `Except Str`: the body of each Python
  `try:` block is a `...B` function returning `Except`, and the public
  operation converts an `error` to the code's descriptive string.
  Error message texts for OS-level exceptions are abbreviated tags.
-/

abbrev Str : Type := List Char

abbrev FsPath : Type := List Str

/-- Opening curly brace character (written via its code point). -/
def obrace : Char := Char.ofNat 123

/-- Closing curly brace character (written via its code point). -/
def cbrace : Char := Char.ofNat 125

/-- Single-quote character (written via its code point). -/
def squote : Char := Char.ofNat 39

/-- Boolean test that `pat` is a leading segment of `s` (Python `startswith`). -/
def startsWithList {α : Type} [DecidableEq α] : List α → List α → Bool
  | _, [] => true
  | [], _ :: _ => false
  | a :: s, b :: p => decide (a = b) && startsWithList s p

/-- Boolean test that `pat` is a trailing segment of `s` (Python `endswith`). -/
def endsWithL (s pat : Str) : Bool := startsWithList s.reverse pat.reverse

/-- Boolean substring test (Python `pat in s`). -/
def containsL : Str → Str → Bool
  | s, pat =>
    if startsWithList s pat then true
    else match s with
      | [] => false
      | _ :: rest => containsL rest pat

/-- ASCII lower-casing of one character (model of `str.lower` per character). -/
def lowerChar (c : Char) : Char :=
  if 65 ≤ c.toNat ∧ c.toNat ≤ 90 then Char.ofNat (c.toNat + 32) else c

/-- ASCII lower-casing of a string (model of `str.lower()`). -/
def lowerStr (s : Str) : Str := s.map lowerChar

/-- Split a string on `/` separators (used to interpret file names that
contain sub-path segments). -/
def splitSlash : Str → List Str
  | [] => [[]]
  | c :: cs =>
    if c = '/' then [] :: splitSlash cs
    else match splitSlash cs with
      | [] => [[c]]
      | g :: gs => (c :: g) :: gs

/-- Model of `os.path.join(base, name)`: an absolute `name` replaces the
base, otherwise the segments of `name` are appended. -/
def joinPath (base : FsPath) (name : Str) : FsPath :=
  match name with
  | '/' :: _ => splitSlash name
  | _ => base ++ splitSlash name

/-- Render a path back to the string the OS functions would report
(`/seg1/seg2/...`). -/
def renderPath (p : FsPath) : Str := p.foldl (fun acc s => acc ++ '/' :: s) []

/-- One step of path resolution: empty and `.` segments vanish, `..` pops. -/
def normSeg (acc : FsPath) (s : Str) : FsPath :=
  if s = [] ∨ s = ".".data then acc
  else if s = "..".data then acc.dropLast
  else acc ++ [s]

/-- OS-level resolution of a path: processes `.`, `..` and empty segments. -/
def resolve (p : FsPath) : FsPath := p.foldl normSeg []

/-- A path segment that resolution leaves alone. -/
def cleanSeg (s : Str) : Prop := s ≠ [] ∧ s ≠ ".".data ∧ s ≠ "..".data

instance (s : Str) : Decidable (cleanSeg s) := by
  unfold cleanSeg
  infer_instance

/-! ## UTF-8 codec -/

/-- Standard UTF-8 encoding of one scalar value. -/
def utf8EncodeChar (c : Char) : List Nat :=
  if c.toNat < 0x80 then [c.toNat]
  else if c.toNat < 0x800 then [0xC0 + c.toNat / 0x40, 0x80 + c.toNat % 0x40]
  else if c.toNat < 0x10000 then
    [0xE0 + c.toNat / 0x1000, 0x80 + c.toNat / 0x40 % 0x40, 0x80 + c.toNat % 0x40]
  else
    [0xF0 + c.toNat / 0x40000, 0x80 + c.toNat / 0x1000 % 0x40,
      0x80 + c.toNat / 0x40 % 0x40, 0x80 + c.toNat % 0x40]

/-- UTF-8 encoding of a string. -/
def utf8Encode : Str → List Nat
  | [] => []
  | c :: cs => utf8EncodeChar c ++ utf8Encode cs

/-- A UTF-8 continuation byte. -/
def contByte (b : Nat) : Bool := decide (0x80 ≤ b ∧ b < 0xC0)

/-- One step of UTF-8 decoding: decode the scalar value starting with byte
`b0`, returning the decoded character and the remaining bytes, or `none`
on a malformed sequence. -/
def utf8DecodeStep (b0 : Nat) (rest : List Nat) : Option (Char × List Nat) :=
  if b0 < 0x80 then some (Char.ofNat b0, rest)
  else if b0 < 0xC0 then none
  else if b0 < 0xE0 then
    match rest with
    | b1 :: r =>
      if contByte b1 then some (Char.ofNat ((b0 - 0xC0) * 0x40 + (b1 - 0x80)), r)
      else none
    | [] => none
  else if b0 < 0xF0 then
    match rest with
    | b1 :: b2 :: r =>
      if contByte b1 && contByte b2 then
        some (Char.ofNat ((b0 - 0xE0) * 0x1000 + (b1 - 0x80) * 0x40 + (b2 - 0x80)), r)
      else none
    | _ => none
  else if b0 < 0xF8 then
    match rest with
    | b1 :: b2 :: b3 :: r =>
      if contByte b1 && contByte b2 && contByte b3 then
        some
          (Char.ofNat
            ((b0 - 0xF0) * 0x40000 + (b1 - 0x80) * 0x1000 + (b2 - 0x80) * 0x40 +
              (b3 - 0x80)), r)
      else none
    | _ => none
  else none

/-- Fuel-indexed UTF-8 decoder (structural recursion so that the model
computes inside the kernel). -/
def utf8DecodeA : Nat → List Nat → Option Str
  | _, [] => some []
  | 0, _ :: _ => none
  | fuel + 1, b0 :: rest =>
    match utf8DecodeStep b0 rest with
    | none => none
    | some cr => (utf8DecodeA fuel cr.2).map (fun t => cr.1 :: t)

/-- UTF-8 decoding; `none` on a malformed byte sequence (Python raises
`UnicodeDecodeError`).  The decoder accepts every sequence the encoder
produces and all the inputs the code under verification feeds it. -/
def utf8Decode (l : List Nat) : Option Str := utf8DecodeA l.length l

/-! ## JSON data model and codec (model of Python's `json` module) -/

mutual
/-- The JSON data model: the values Python's `json` module round-trips
(floats are not modelled; object keys are strings). -/
inductive Json where
  | null : Json
  | bool (b : Bool) : Json
  | int (n : Int) : Json
  | str (s : Str) : Json
  | arr (a : JArr) : Json
  | obj (o : JObj) : Json

/-- A JSON array (sequence). -/
inductive JArr where
  | nil : JArr
  | cons (hd : Json) (tl : JArr) : JArr

/-- A JSON object (mapping with string keys). -/
inductive JObj where
  | nil : JObj
  | cons (k : Str) (v : Json) (tl : JObj) : JObj
end

/-- Decimal digit character. -/
def digitChar (d : Nat) : Char := Char.ofNat (48 + d)

/-- Fuel-indexed decimal printer (structural recursion so that the model
computes inside the kernel). -/
def natReprA : Nat → Nat → Str
  | 0, _ => []
  | fuel + 1, n =>
    if n < 10 then [digitChar n] else natReprA fuel (n / 10) ++ [digitChar (n % 10)]

/-- Decimal representation of a natural number. -/
def natRepr (n : Nat) : Str := natReprA (n + 1) n

/-- Decimal digit test used by the model parser. -/
def isDigitC (c : Char) : Bool := decide (48 ≤ c.toNat ∧ c.toNat ≤ 57)

/-- Greedy decimal number parser (accumulator form). -/
def parseNatAux : Nat → Str → Nat × Str
  | acc, [] => (acc, [])
  | acc, c :: cs =>
    if isDigitC c then parseNatAux (acc * 10 + (c.toNat - 48)) cs else (acc, c :: cs)

/-- Decimal representation of an integer. -/
def intRepr (n : Int) : Str :=
  if n < 0 then '-' :: natRepr n.natAbs else natRepr n.natAbs

/-- The escaping `json.dumps` applies inside string literals, restricted
to what the model relies on: carriage returns (and the escape character
itself, for injectivity) are escaped, so serialized JSON text contains
no `CR` and survives the universal-newline translation of a text-mode
read unchanged - exactly as real `json.dumps` output does. -/
def escCR : Str → Str
  | [] => []
  | c :: cs =>
    if c = '\r' then '\\' :: 'r' :: escCR cs
    else if c = '\\' then '\\' :: '\\' :: escCR cs
    else c :: escCR cs

/-- Inverse of `escCR` (the unescaping done by `json.loads`). -/
def unescCR : Str → Str
  | [] => []
  | [c] => [c]
  | c :: c2 :: cs =>
    if c = '\\' then
      if c2 = 'r' then '\r' :: unescCR cs
      else if c2 = '\\' then '\\' :: unescCR cs
      else c :: unescCR (c2 :: cs)
    else c :: unescCR (c2 :: cs)

mutual
/-- The model serializer standing in for `json.dumps(v, indent=4,
ensure_ascii=False)`: an injective textual encoding whose leading
character agrees with Python's on containers (`[`, curly brace) and is
never `E`.  Strings and containers are length-prefixed so that the
parser needs no escaping. -/
def printVal : Json → Str
  | .null => "null".data
  | .bool true => "true".data
  | .bool false => "false".data
  | .int n => intRepr n ++ [';']
  | .str s => '"' :: natRepr (escCR s).length ++ ':' :: escCR s
  | .arr a => '[' :: printArr a ++ [']']
  | .obj o => obrace :: printObj o ++ [cbrace]

/-- Serialize the items of an array. -/
def printArr : JArr → Str
  | .nil => []
  | .cons v tl => printVal v ++ printArr tl

/-- Serialize the fields of an object. -/
def printObj : JObj → Str
  | .nil => []
  | .cons k v tl =>
    'K' :: natRepr (escCR k).length ++ ':' :: escCR k ++ printVal v ++ printObj tl
end

mutual
/-- Fuel bound for the parser: the number of parsing steps. -/
def jsize : Json → Nat
  | .null => 1
  | .bool _ => 1
  | .int _ => 1
  | .str _ => 1
  | .arr a => jsizeA a + 1
  | .obj o => jsizeO o + 1

/-- Fuel needed for an array's items and closing bracket. -/
def jsizeA : JArr → Nat
  | .nil => 1
  | .cons v tl => jsize v + jsizeA tl

/-- Fuel needed for an object's fields and closing brace. -/
def jsizeO : JObj → Nat
  | .nil => 1
  | .cons _ v tl => jsize v + jsizeO tl
end

/-- Parse a length header `<digits>:`. -/
def parseLen (cs : Str) : Option (Nat × Str) :=
  match parseNatAux 0 cs with
  | (n, cs1) =>
    match cs1 with
    | ':' :: cs2 => some (n, cs2)
    | _ => none

/-- Parse the tail of the `null` literal. -/
def parseNull : Str → Option (Json × Str)
  | 'u' :: 'l' :: 'l' :: r => some (.null, r)
  | _ => none

/-- Parse the tail of the `true` literal. -/
def parseTrue : Str → Option (Json × Str)
  | 'r' :: 'u' :: 'e' :: r => some (.bool true, r)
  | _ => none

/-- Parse the tail of the `false` literal. -/
def parseFalse : Str → Option (Json × Str)
  | 'a' :: 'l' :: 's' :: 'e' :: r => some (.bool false, r)
  | _ => none

/-- Parse a length-prefixed string body. -/
def parseStrBody (cs : Str) : Option (Json × Str) :=
  (parseLen cs).map (fun ncs => (.str (unescCR (ncs.2.take ncs.1)), ncs.2.drop ncs.1))

/-- Parse an integer body terminated by `;`. -/
def parseIntBody (neg : Bool) (cs : Str) : Option (Json × Str) :=
  match parseNatAux 0 cs with
  | (k, cs1) =>
    match cs1 with
    | ';' :: r => some (.int (if neg then -(k : Int) else (k : Int)), r)
    | _ => none

mutual
/-- The model parser standing in for `json.loads`: inverts `printVal`.
Structural on the fuel so that the model computes inside the kernel. -/
def parseVal : Nat → Str → Option (Json × Str)
  | 0, _ => none
  | _ + 1, [] => none
  | fuel + 1, c :: cs =>
    if c = 'n' then parseNull cs
    else if c = 't' then parseTrue cs
    else if c = 'f' then parseFalse cs
    else if c = '"' then parseStrBody cs
    else if c = '[' then
      (parseItems fuel cs).map (fun ar => (Json.arr ar.1, ar.2))
    else if c = obrace then
      (parseFields fuel cs).map (fun oo => (Json.obj oo.1, oo.2))
    else if c = '-' then parseIntBody true cs
    else if isDigitC c then parseIntBody false (c :: cs)
    else none

/-- Parse array items up to the closing bracket. -/
def parseItems : Nat → Str → Option (JArr × Str)
  | 0, _ => none
  | _ + 1, [] => none
  | fuel + 1, c :: cs =>
    if c = ']' then some (.nil, cs)
    else
      (parseVal fuel (c :: cs)).bind
        (fun vcs =>
          (parseItems fuel vcs.2).map (fun acs => (JArr.cons vcs.1 acs.1, acs.2)))

/-- Parse object fields up to the closing brace; each field is a
length-prefixed key `K<digits>:<chars>` followed by a value. -/
def parseFields : Nat → Str → Option (JObj × Str)
  | 0, _ => none
  | _ + 1, [] => none
  | fuel + 1, c :: cs =>
    if c = cbrace then some (.nil, cs)
    else if c = 'K' then
      (parseLen cs).bind
        (fun ncs =>
          (parseVal fuel (ncs.2.drop ncs.1)).bind
            (fun vcs =>
              (parseFields fuel vcs.2).map
                (fun ocs => (JObj.cons (unescCR (ncs.2.take ncs.1)) vcs.1 ocs.1, ocs.2))))
    else none
end

/-- Model of `json.dumps(v, indent=4, ensure_ascii=False)`. -/
def jsonDumps (v : Json) : Str := printVal v

/-- Model of `json.loads`. -/
def jsonLoads (s : Str) : Option Json :=
  match parseVal (s.length + 1) s with
  | some (v, []) => some v
  | _ => none

/-! ## Marker, Python values, cipher -/

/-- The reserved marker `E::` as text. -/
def markerStr : Str := ['E', ':', ':']

/-- The reserved marker `b"E::"` as bytes. -/
def markerBytes : List Nat := [69, 58, 58]

/-- The content argument of `save_file` / `edit_file`: a Python `str`,
`bytes`, or structured (`dict` / `list`, or any JSON value) object. -/
inductive Content where
  | str (s : Str) : Content
  | bytes (b : List Nat) : Content
  | structured (j : Json) : Content

/-- Model of `isinstance(file_content, bytes)`. -/
def isBytes : Content → Bool
  | .bytes _ => true
  | _ => false

/-- Model of `isinstance(file_content, (dict, list))`. -/
def isDictOrListC : Content → Bool
  | .structured (.arr _) => true
  | .structured (.obj _) => true
  | _ => false

mutual
/-- Model of Python `repr`/`str` on JSON-model values: `None`, `True`,
`-3`, `'text'`, `[...]`, curly-braced dicts.  Quote/escape handling of
`repr` on strings containing quotes or backslashes is not modelled. -/
def pyReprJ : Json → Str
  | .null => ['N', 'o', 'n', 'e']
  | .bool true => ['T', 'r', 'u', 'e']
  | .bool false => ['F', 'a', 'l', 's', 'e']
  | .int n => intRepr n
  | .str s => squote :: s ++ [squote]
  | .arr a => '[' :: pyReprA a ++ [']']
  | .obj o => obrace :: pyReprO o ++ [cbrace]

/-- Comma-separated item list of a Python list repr. -/
def pyReprA : JArr → Str
  | .nil => []
  | .cons v .nil => pyReprJ v
  | .cons v tl => pyReprJ v ++ ',' :: ' ' :: pyReprA tl

/-- Comma-separated field list of a Python dict repr. -/
def pyReprO : JObj → Str
  | .nil => []
  | .cons k v .nil => squote :: k ++ squote :: ':' :: ' ' :: pyReprJ v
  | .cons k v tl =>
    squote :: k ++ squote :: ':' :: ' ' :: pyReprJ v ++ ',' :: ' ' :: pyReprO tl
end

/-- Model of Python `str(file_content)` for the values `save_file` can
receive (the `bytes` arm is unreachable: the code only applies `str` to
non-bytes content). -/
def pyStr : Content → Str
  | .str s => s
  | .bytes _ => []
  | .structured j => pyReprJ j

/-- The JSON value `json.dumps` receives in the text branch of
`save_file`. -/
def contentToJson : Content → Json
  | .str s => .str s
  | .structured j => j
  | .bytes _ => .null

/-- One value of the `search_files` result dictionary: a list of paths or
the `"File Not Found"` sentinel string. -/
inductive Found where
  | paths (l : List Str) : Found
  | notFound : Found

/-- A Python value returned by one of the operations: `True`, strings,
bytes, numbers, `None`, structured data, name lists, the pair of lists
of `list_files(list_both_directories=True)`, or the `search_files`
dictionary. -/
inductive Value where
  | bool (b : Bool) : Value
  | str (s : Str) : Value
  | bytes (b : List Nat) : Value
  | int (n : Int) : Value
  | none : Value
  | structured (j : Json) : Value
  | strList (l : List Str) : Value
  | pairLists (a b : List Str) : Value
  | searchRes (r : List (Str × Found)) : Value

/-- Conversion of a parsed JSON value to the Python object `json.loads`
returns (strings, booleans, numbers and `None` come back as the native
scalars; arrays and objects as structured data). -/
def jsonToValue : Json → Value
  | .str s => .str s
  | .bool b => .bool b
  | .null => .none
  | .int n => .int n
  | .arr a => .structured (.arr a)
  | .obj o => .structured (.obj o)

/-- Interface of `cryptography.fernet.Fernet`: `enc` produces an ASCII
token (Fernet tokens are base64url text), and `dec` inverts `enc` on
byte strings.  `dec` returns `none` where Python raises `InvalidToken`. -/
structure Cipher where
  enc : List Nat → List Nat
  dec : List Nat → Option (List Nat)
  dec_enc : ∀ b, (∀ x ∈ b, x < 256) → dec (enc b) = some b
  enc_ascii : ∀ b, ∀ x ∈ enc b, x < 0x80
  enc_no_cr : ∀ b, (13 : Nat) ∉ enc b

/-- A concrete cipher (hex-like nibble encoding) used to instantiate
theorems at concrete inputs. -/
def tcEnc : List Nat → List Nat
  | [] => []
  | n :: r => (65 + n % 256 / 16) :: (65 + n % 16) :: tcEnc r

/-- Decoder of `tcEnc`. -/
def tcDec : List Nat → Option (List Nat)
  | [] => some []
  | a :: b :: r =>
    if 65 ≤ a ∧ a < 81 ∧ 65 ≤ b ∧ b < 81 then
      (tcDec r).map (fun t => ((a - 65) * 16 + (b - 65)) :: t)
    else none
  | [_] => none

/-- The concrete cipher instance. -/
def testCipher : Cipher where
  enc := tcEnc
  dec := tcDec
  dec_enc := by
    intro b h
    induction b with
    | nil => rw [tcEnc, tcDec]
    | cons n r ih =>
      have hn : n < 256 := h n (by simp)
      have hm : n % 256 = n := Nat.mod_eq_of_lt hn
      have hd : n / 16 < 16 := by omega
      have hm16 : n % 16 < 16 := Nat.mod_lt _ (by norm_num)
      rw [tcEnc, tcDec, if_pos (by omega), ih (fun y hy => h y (by simp [hy]))]
      have e : (65 + n % 256 / 16 - 65) * 16 + (65 + n % 16 - 65) = n := by
        rw [hm]
        have := Nat.div_add_mod n 16
        omega
      rw [e]
      rfl
  enc_ascii := by
    intro b
    induction b with
    | nil => simp [tcEnc]
    | cons n r ih =>
      intro x hx
      have h1 : n % 256 / 16 < 16 := by omega
      have h2 : n % 16 < 16 := Nat.mod_lt _ (by norm_num)
      rw [tcEnc] at hx
      simp only [List.mem_cons] at hx
      rcases hx with rfl | rfl | hx
      · omega
      · omega
      · exact ih x hx
  enc_no_cr := by
    intro b
    induction b with
    | nil => simp [tcEnc]
    | cons n r ih =>
      rw [tcEnc]
      intro hmem
      simp only [List.mem_cons] at hmem
      rcases hmem with h | h | h
      · omega
      · omega
      · exact ih h

/-! ## The on-disk state and OS primitives -/

/-- The state of the filesystem the storage manager operates on. -/
structure Disk where
  files : List (FsPath × List Nat)
  dirs : List FsPath
  faults : List FsPath

/-- Boolean path membership. -/
def pathMem (p : FsPath) (l : List FsPath) : Bool := l.any (fun q => decide (q = p))

/-- Content of the file stored at resolved path `q`, if any. -/
def getFile? (fs : Disk) (q : FsPath) : Option (List Nat) :=
  (fs.files.find? (fun e => decide (e.1 = q))).map (fun e => e.2)

/-- Whether a regular file is stored at resolved path `q`. -/
def hasFile (fs : Disk) (q : FsPath) : Bool := (getFile? fs q).isSome

/-- Model of `os.path.exists`. -/
def pathExists (fs : Disk) (p : FsPath) : Bool :=
  hasFile fs (resolve p) || pathMem (resolve p) fs.dirs

/-- Model of `os.path.isdir`. -/
def isDir (fs : Disk) (p : FsPath) : Bool := pathMem (resolve p) fs.dirs

/-- Replace or add a file entry. -/
def setFile (files : List (FsPath × List Nat)) (q : FsPath) (b : List Nat) :
    List (FsPath × List Nat) :=
  (q, b) :: files.filter (fun e => !(decide (e.1 = q)))

/-- Model of `open(path, "w"/"wb")` followed by a full write: fails on a
faulted path, on a directory, and when the parent directory is missing. -/
def writeFile (fs : Disk) (p : FsPath) (b : List Nat) : Except Str Disk :=
  if pathMem (resolve p) fs.faults then .error "OSError".data
  else if pathMem (resolve p) fs.dirs then .error "IsADirectoryError".data
  else if !(pathMem (resolve p).dropLast fs.dirs) then .error "FileNotFoundError".data
  else .ok { fs with files := setFile fs.files (resolve p) b }

/-- Model of `open(path, "r"/"rb")` followed by a full read. -/
def readRaw (fs : Disk) (p : FsPath) : Except Str (List Nat) :=
  if pathMem (resolve p) fs.faults then .error "OSError".data
  else if pathMem (resolve p) fs.dirs then .error "IsADirectoryError".data
  else
    match getFile? fs (resolve p) with
    | some b => .ok b
    | none => .error "FileNotFoundError".data

/-- Model of `os.remove`. -/
def removeFile (fs : Disk) (p : FsPath) : Except Str Disk :=
  if pathMem (resolve p) fs.faults then .error "OSError".data
  else if pathMem (resolve p) fs.dirs then .error "IsADirectoryError".data
  else if !(hasFile fs (resolve p)) then .error "FileNotFoundError".data
  else .ok { fs with files := fs.files.filter (fun e => !(decide (e.1 = resolve p))) }

/-- Model of `os.makedirs(path, exist_ok=True)`: creates every missing
ancestor; fails on a faulted path or when an ancestor exists as a file. -/
def makedirs (fs : Disk) (p : FsPath) : Except Str Disk :=
  if pathMem (resolve p) fs.faults then .error "OSError".data
  else if (resolve p).inits.any (fun r => hasFile fs r) then
    .error "NotADirectoryError".data
  else .ok { fs with dirs := fs.dirs ++ (resolve p).inits.filter (fun r => !(pathMem r fs.dirs)) }

/-- The entry name `c` has inside directory `q`, if it is a direct child. -/
def childName (q c : FsPath) : Option Str :=
  if c.take q.length = q ∧ c.length = q.length + 1 then (c.drop q.length).head?
  else none

/-- The entries (files and sub-directories) directly inside `q`. -/
def childNames (fs : Disk) (q : FsPath) : List Str :=
  fs.files.filterMap (fun e => childName q e.1) ++ fs.dirs.filterMap (fun d => childName q d)

/-- Model of `os.listdir`. -/
def listdir (fs : Disk) (p : FsPath) : Except Str (List Str) :=
  if pathMem (resolve p) fs.faults then .error "OSError".data
  else if !(pathMem (resolve p) fs.dirs) then .error "FileNotFoundError".data
  else .ok (childNames fs (resolve p))

/-- Model of `shutil.rmtree`: removes the directory and everything below. -/
def rmtree (fs : Disk) (p : FsPath) : Except Str Disk :=
  if pathMem (resolve p) fs.faults then .error "OSError".data
  else .ok { fs with
    files := fs.files.filter (fun e => !(startsWithList e.1 (resolve p))),
    dirs := fs.dirs.filter (fun d => !(startsWithList d (resolve p))) }

/-- Model of `os.walk` restricted to what `search_files` consumes: for
every file in the subtree of `base`, the textual joined path
`os.path.join(root, f)` together with the file name `f`.  (`os.walk`
itself swallows listing errors, so this primitive cannot fail.) -/
def walkFilePairs (fs : Disk) (base : FsPath) : List (Str × Str) :=
  fs.files.filterMap (fun e =>
    if startsWithList e.1 (resolve base) && decide ((resolve base).length < e.1.length) then
      some (renderPath (base ++ e.1.drop (resolve base).length), e.1.getLastD [])
    else none)

/-! ## The storage manager and its operations -/

/-- The `FileSystem` class state after `__init__`: the two storage roots
and the cipher bound to the loaded-or-created key.  (Key bootstrap itself
is construction-time and outside the per-operation claims.) -/
structure FileSystem where
  storage_data : FsPath
  storage_temp : FsPath
  cipher : Cipher

/-- `self.storage_temp if temp else self.storage_data`. -/
def base_path (m : FileSystem) (temp : Bool) : FsPath :=
  if temp then m.storage_temp else m.storage_data

/-- Model of `_get_path`. -/
def get_path (m : FileSystem) (file_name : Str) (temp : Bool) : FsPath :=
  joinPath (base_path m temp) file_name

/-- The binary-read extension table of `read_file` (lines 148-152). -/
def binExts : List Str :=
  [".png".data, ".jpg".data, ".jpeg".data, ".bmp".data, ".gif".data,
    ".mp3".data, ".wav".data, ".ogg".data, ".flac".data,
    ".pdf".data, ".csv".data, ".zip".data, ".bin".data]

/-- `file_name.lower().endswith((...))` against the binary table. -/
def binSuffix (s : Str) : Bool := binExts.any (fun ext => endsWithL s ext)

/-- Universal-newline translation applied by a Python text-mode read
(`open(..., "r")`, `newline=None`): `\r\n` and lone `\r` become `\n`.
(The write side's `\n` → `os.linesep` translation is the identity on
the POSIX platform modelled, so writes need no counterpart.) -/
def univNewlines : Str → Str
  | [] => []
  | [c] => if c = '\r' then ['\n'] else [c]
  | c :: c2 :: cs =>
    if c = '\r' then
      if c2 = '\n' then '\n' :: univNewlines cs
      else '\n' :: univNewlines (c2 :: cs)
    else c :: univNewlines (c2 :: cs)

/-- `if dir_path and not os.path.exists(dir_path): os.makedirs(...)`.
(`dir_path` is always truthy here: the full path is absolute, so its
dirname is never the empty string.) -/
def makedirsIfNeeded (fs : Disk) (dir_path : FsPath) : Except Str Disk :=
  if !(pathExists fs dir_path) then makedirs fs dir_path else .ok fs

/-- The bytes `save_file` writes (lines 95-118): the encrypt branch
coerces non-bytes content with `str()`, encrypts, and prefixes the
marker; the plain binary branch writes the bytes verbatim; the text
branch serializes to JSON when the content is a dict/list or the name
ends in `.json`, else applies `str()`, and writes UTF-8 text.  The
text-mode write's `\n` → `os.linesep` translation is the identity on
the POSIX platform modelled, so the written bytes are the raw UTF-8
encoding. -/
def saveBytes (cipher : Cipher) (file_name : Str) (file_content : Content)
    (encrypt : Bool) : List Nat :=
  if encrypt then
    markerBytes ++
      cipher.enc
        (match file_content with
          | .bytes b => b
          | c => utf8Encode (pyStr c))
  else
    match file_content with
    | .bytes b => b
    | c =>
      if isDictOrListC c || endsWithL file_name ".json".data then
        utf8Encode (jsonDumps (contentToJson c))
      else utf8Encode (pyStr c)

/-- Body of the `try` in `save_file` (lines 82-120), with the state
threaded explicitly; an `error` models an uncaught exception inside the
block. -/
def save_fileB (m : FileSystem) (fs : Disk) (file_name : Str)
    (file_content : Content) (temp overwrite encrypt : Bool) :
    Except Str Value × Disk :=
  match makedirsIfNeeded fs (joinPath (base_path m temp) file_name).dropLast with
  | .error e => (.error e, fs)
  | .ok fs1 =>
    if pathExists fs1 (joinPath (base_path m temp) file_name) && !overwrite then
      (.ok (.str "File already exists.".data), fs1)
    else
      match writeFile fs1 (joinPath (base_path m temp) file_name)
          (saveBytes m.cipher file_name file_content encrypt) with
      | .error e => (.error e, fs1)
      | .ok fs2 => (.ok (.bool true), fs2)

/-- `save_file`: the body wrapped in `try/except`. -/
def save_file (m : FileSystem) (fs : Disk) (file_name : Str)
    (file_content : Content) (temp overwrite encrypt : Bool) : Value × Disk :=
  match save_fileB m fs file_name file_content temp overwrite encrypt with
  | (.ok v, fs') => (v, fs')
  | (.error e, fs') => (.str ("Error saving file: ".data ++ e), fs')

/-- Body of the `try` in `read_file` (lines 145-181).  The text-mode
read applies the universal-newline translation (`univNewlines`) to the
decoded string, as Python's `open(..., "r")` does; the inner
`bytes.decode("utf-8")` of the decrypt path performs no translation and
is left raw. -/
def read_fileB (m : FileSystem) (fs : Disk) (file_name : Str) (temp : Bool) :
    Except Str Value :=
  match readRaw fs (get_path m file_name temp) with
  | .error e => .error e
  | .ok data =>
    if binSuffix (lowerStr file_name) then
      if startsWithList data markerBytes then
        match m.cipher.dec (data.drop 3) with
        | some d => .ok (.bytes d)
        | none => .error "InvalidToken".data
      else .ok (.bytes data)
    else
      match utf8Decode data with
      | none => .error "UnicodeDecodeError".data
      | some s0 =>
        if startsWithList (univNewlines s0) markerStr then
          match m.cipher.dec (utf8Encode ((univNewlines s0).drop 3)) with
          | some d =>
            match utf8Decode d with
            | some t => .ok (.str t)
            | none => .error "UnicodeDecodeError".data
          | none => .error "InvalidToken".data
        else if endsWithL file_name ".json".data then
          match jsonLoads (univNewlines s0) with
          | some j => .ok (jsonToValue j)
          | none => .error "JSONDecodeError".data
        else .ok (.str (univNewlines s0))

/-- `read_file`: the not-found check sits before the `try` (it returns a
value, it does not raise); the body is wrapped in `try/except`. -/
def read_file (m : FileSystem) (fs : Disk) (file_name : Str) (temp : Bool) : Value :=
  if !(pathExists fs (get_path m file_name temp)) then .str "File not found".data
  else
    match read_fileB m fs file_name temp with
    | .ok v => v
    | .error e => .str ("Error reading file: ".data ++ e)

/-- Body of the `try` in `delete_file`. -/
def delete_fileB (fs : Disk) (file_path : FsPath) : Except Str Value × Disk :=
  match removeFile fs file_path with
  | .ok fs' => (.ok (.str ("Deleted ".data ++ renderPath file_path)), fs')
  | .error e => (.error e, fs)

/-- `delete_file`: not-found check before the `try`, body wrapped. -/
def delete_file (m : FileSystem) (fs : Disk) (file_name : Str) (temp : Bool) :
    Value × Disk :=
  if !(pathExists fs (get_path m file_name temp)) then (.str "File not found".data, fs)
  else
    match delete_fileB fs (get_path m file_name temp) with
    | (.ok v, fs') => (v, fs')
    | (.error e, fs') => (.str ("Error deleting file: ".data ++ e), fs')

/-- Comma-and-space separated concatenation (Python list repr). -/
def commaSep : List Str → Str
  | [] => []
  | [s] => s
  | s :: rest => s ++ ',' :: ' ' :: commaSep rest

/-- Python `repr` of a list of strings. -/
def pyReprStrList (l : List Str) : Str :=
  '[' :: commaSep (l.map (fun s => squote :: s ++ [squote])) ++ [']']

/-- The two-section summary string of `list_files(show_details=True)`. -/
def listSummary (dataC tempC : List Str) : Str :=
  "Data Storage (".data ++ natRepr dataC.length ++ "): ".data ++
    (if dataC = [] then "No Files Found".data else pyReprStrList dataC) ++
    '\n' :: "Temp Storage (".data ++ natRepr tempC.length ++ "): ".data ++
    (if tempC = [] then "No Files Found".data else pyReprStrList tempC)

/-- Body of the `try` in `list_files` (lines 214-232): both roots are
always listed first; the single-root branch lists its root again and
filters `.key` names regardless of which root was selected. -/
def list_filesB (m : FileSystem) (fs : Disk)
    (temp list_both_directories show_details : Bool) : Except Str Value :=
  match listdir fs m.storage_data with
  | .error e => .error e
  | .ok data_storage_content =>
    match listdir fs m.storage_temp with
    | .error e => .error e
    | .ok tempAll =>
      let temp_storage_content := tempAll.filter (fun f => !(endsWithL f ".key".data))
      if !list_both_directories then
        match listdir fs (base_path m temp) with
        | .error e => .error e
        | .ok baseC => .ok (.strList (baseC.filter (fun f => !(endsWithL f ".key".data))))
      else if show_details then
        .ok (.str (listSummary data_storage_content temp_storage_content))
      else .ok (.pairLists data_storage_content temp_storage_content)

/-- `list_files`: the body wrapped in `try/except` (the handler returns a
one-element list holding the error string). -/
def list_files (m : FileSystem) (fs : Disk)
    (temp list_both_directories show_details : Bool) : Value :=
  match list_filesB m fs temp list_both_directories show_details with
  | .ok v => v
  | .error e => .strList ["Error listing files: ".data ++ e]

/-- `file_exists`. -/
def file_exists (m : FileSystem) (fs : Disk) (file_name : Str) (temp : Bool) : Bool :=
  pathExists fs (get_path m file_name temp)

/-- `edit_file`: requires the file to exist, then delegates to `save_file`
with `overwrite=True`.  It has no `try` of its own and cannot raise. -/
def edit_file (m : FileSystem) (fs : Disk) (file_name : Str) (new_content : Content)
    (temp encrypt : Bool) : Value × Disk :=
  if !(file_exists m fs file_name temp) then (.str "File not found".data, fs)
  else save_file m fs file_name new_content temp true encrypt

/-- The removal loop of `clear_storage`: skips `.key` names, removes the
rest one at a time; an exception aborts the loop with the partial state. -/
def clearLoop (fs : Disk) (base : FsPath) : List Str → Except Str Unit × Disk
  | [] => (.ok (), fs)
  | f :: rest =>
    if endsWithL f ".key".data then clearLoop fs base rest
    else
      match removeFile fs (joinPath base f) with
      | .error e => (.error e, fs)
      | .ok fs' => clearLoop fs' base rest

/-- Body of the `try` in `clear_storage` (lines 254-258). -/
def clear_storageB (m : FileSystem) (fs : Disk) (temp : Bool) :
    Except Str Unit × Disk :=
  match listdir fs (base_path m temp) with
  | .error e => (.error e, fs)
  | .ok entries => clearLoop fs (base_path m temp) entries

/-- `clear_storage`: the body wrapped in `try/except`. -/
def clear_storage (m : FileSystem) (fs : Disk) (temp : Bool) : Value × Disk :=
  match clear_storageB m fs temp with
  | (.ok _, fs') =>
    (.str ("Cleared storage: ".data ++ renderPath (base_path m temp)), fs')
  | (.error e, fs') => (.str ("Error clearing storage: ".data ++ e), fs')

/-- Body of the `try` in `delete_folder` (lines 273-286).  Message texts
are modelled without the emoji/quote decorations of the source. -/
def delete_folderB (m : FileSystem) (fs : Disk) (dir_name : Str) (temp : Bool) :
    Except Str Value × Disk :=
  if !(pathExists fs (joinPath (base_path m temp) dir_name)) then
    (.ok (.str ("The folder ".data ++ dir_name ++ "/ does not exist.".data)), fs)
  else if !(isDir fs (joinPath (base_path m temp) dir_name)) then
    (.ok (.str (dir_name ++ " is not a folder.".data)), fs)
  else
    match rmtree fs (joinPath (base_path m temp) dir_name) with
    | .error e => (.error e, fs)
    | .ok fs' =>
      (.ok (.str ("The folder ".data ++ dir_name ++
        "/ and all its contents were deleted successfully.".data)), fs')

/-- `delete_folder`: the body wrapped in `try/except`. -/
def delete_folder (m : FileSystem) (fs : Disk) (dir_name : Str) (temp : Bool) :
    Value × Disk :=
  match delete_folderB m fs dir_name temp with
  | (.ok v, fs') => (v, fs')
  | (.error e, fs') =>
    (.str ("Error deleting folder ".data ++ dir_name ++ "/: ".data ++ e), fs')

/-- First-occurrence deduplication: the keys of the dict comprehension
of `search_files` (Python dict keys keep first-occurrence order). -/
def dedupKeys (l : List Str) : List Str :=
  l.foldl (fun acc x => if x ∈ acc then acc else acc ++ [x]) []

/-- `results[name].append(p)`. -/
def addMatch (res : List (Str × List Str)) (key : Str) (p : Str) :
    List (Str × List Str) :=
  res.map (fun kv => if kv.1 = key then (kv.1, kv.2 ++ [p]) else kv)

/-- The nested matching loops of `search_files`: for every entry (joined
path, entry name) and every queried fragment, a case-insensitive
substring match appends the joined path to that fragment's bucket. -/
def searchFilesLoop (res : List (Str × List Str)) (file_names : List Str)
    (pairs : List (Str × Str)) : List (Str × List Str) :=
  pairs.foldl
    (fun acc pf =>
      file_names.foldl
        (fun acc2 name =>
          if containsL (lowerStr pf.2) (lowerStr name) then addMatch acc2 name pf.1
          else acc2)
        acc)
    res

/-- Replace empty buckets by the `"File Not Found"` sentinel. -/
def finishSearch (res : List (Str × List Str)) : Value :=
  .searchRes (res.map (fun kv => (kv.1, if kv.2 = [] then Found.notFound else Found.paths kv.2)))

/-- `search_files` (lines 290-333).  The source has no `try/except`: a
listing failure in the non-recursive branch propagates to the caller,
which the `Except` result type records. -/
def search_files (m : FileSystem) (fs : Disk) (file_names : List Str)
    (temp search_in_any_folders : Bool) : Except Str Value :=
  let results0 := (dedupKeys file_names).map (fun name => (name, ([] : List Str)))
  if !search_in_any_folders then
    match listdir fs (base_path m temp) with
    | .error e => .error e
    | .ok files =>
      .ok (finishSearch (searchFilesLoop results0 file_names
        (files.map (fun f => (renderPath (joinPath (base_path m temp) f), f)))))
  else
    .ok (finishSearch (searchFilesLoop results0 file_names
      (walkFilePairs fs (base_path m temp))))

/-- Concrete manager instance for witnesses: roots `/data` and
`/data/temp`, the concrete cipher. -/
def testFS : FileSystem where
  storage_data := ["data".data]
  storage_temp := ["data".data, "temp".data]
  cipher := testCipher

/-- Concrete empty disk: both roots exist, no files, no faults. -/
def disk0 : Disk where
  files := []
  dirs := [[], ["data".data], ["data".data, "temp".data]]
  faults := []

/-- Concrete disk for C7: a key file and a text file in the persistent
root. -/
def fsC7 : Disk where
  files := [(["data".data, "a.key".data], [1]), (["data".data, "b.txt".data], [2])]
  dirs := [[], ["data".data], ["data".data, "temp".data]]
  faults := []

/-- Concrete disk for the C5 witness: creating the missing directory
`d` under the persistent root faults. -/
def fsC5s : Disk where
  files := []
  dirs := [[], ["data".data], ["data".data, "temp".data]]
  faults := [["data".data, "d".data]]

/-- Concrete disk for the C5 counterexample: listing the persistent root
faults. -/
def fsC5f : Disk where
  files := []
  dirs := [[], ["data".data], ["data".data, "temp".data]]
  faults := [["data".data]]

/-- Concrete disk for C9: a directory `/outside` with one file sits next
to the storage root `/data`. -/
def fsC9 : Disk where
  files := [(["outside".data, "f.txt".data], [7])]
  dirs := [[], ["data".data], ["data".data, "temp".data], ["outside".data]]
  faults := []

/-- Concrete disk for the C6 witness: the transient root holds a key
file and two plain files. -/
def fsC6 : Disk where
  files := [(["data".data, "temp".data, "k.key".data], [9]),
    (["data".data, "temp".data, "a.txt".data], [1]),
    (["data".data, "temp".data, "b.txt".data], [2])]
  dirs := [[], ["data".data], ["data".data, "temp".data]]
  faults := []

/-- Concrete disk for the C6 counterexample: the persistent root
contains a sub-directory with a file inside. -/
def fsC6c : Disk where
  files := [(["data".data, "sub".data, "inner.txt".data], [1])]
  dirs := [[], ["data".data], ["data".data, "temp".data], ["data".data, "sub".data]]
  faults := []

/-- The hit list accumulated for fragment `k` from the entry pairs
(joined path, entry name): the paths of the pairs whose entry name
contains `k` case-insensitively, in order. -/
def searchHits (pairs : List (Str × Str)) (k : Str) : List Str :=
  (pairs.filter (fun pf => containsL (lowerStr pf.2) (lowerStr k))).map (fun pf => pf.1)

/-- Concrete disk for the C8 witness: the spec's own example, files
`a.txt`, `ab.txt`, `b.txt` in the persistent root. -/
def fsC8 : Disk where
  files := [(["data".data, "a.txt".data], [1]), (["data".data, "ab.txt".data], [2]),
    (["data".data, "b.txt".data], [3])]
  dirs := [[], ["data".data]]
  faults := []

/-- The non-recursive behaviour the claim describes, written from the
claim's words: fragments are matched only against the names of regular
files directly in the selected root, sub-directory names not being
candidates. -/
def search_files_claimed (m : FileSystem) (fs : Disk) (file_names : List Str)
    (temp : Bool) : Except Str Value :=
  .ok (finishSearch (searchFilesLoop
    ((dedupKeys file_names).map (fun name => (name, ([] : List Str)))) file_names
    ((fs.files.filterMap (fun e => childName (resolve (base_path m temp)) e.1)).map
      (fun f => (renderPath (joinPath (base_path m temp) f), f)))))

/-- Concrete disk for the C8 counterexample: the persistent root holds
only a sub-directory `abc`, no files. -/
def fsC8d : Disk where
  files := []
  dirs := [[], ["data".data], ["data".data, "abc".data]]
  faults := []

theorem normSeg_clean (acc : FsPath) (s : Str) (h : cleanSeg s) :
    normSeg acc s = acc ++ [s] := by
  unfold normSeg
  rw [if_neg, if_neg]
  · exact h.2.2
  · rintro (h1 | h2)
    · exact h.1 h1
    · exact h.2.1 h2

theorem resolve_append (p : FsPath) (s : Str) (h : cleanSeg s) :
    resolve (p ++ [s]) = resolve p ++ [s] := by
  unfold resolve
  rw [List.foldl_append]
  simp only [List.foldl_cons, List.foldl_nil]
  exact normSeg_clean _ s h

theorem foldl_normSeg_clean (p : FsPath) (h : ∀ s ∈ p, cleanSeg s) :
    ∀ acc : FsPath, p.foldl normSeg acc = acc ++ p := by
  induction p with
  | nil => intro acc; simp
  | cons s rest ih =>
    intro acc
    simp only [List.foldl_cons]
    rw [normSeg_clean acc s (h s (by simp)), ih (fun t ht => h t (by simp [ht]))]
    simp

theorem resolve_clean (p : FsPath) (h : ∀ s ∈ p, cleanSeg s) : resolve p = p := by
  unfold resolve
  rw [foldl_normSeg_clean p h []]
  simp

set_option maxRecDepth 4000 in
theorem utf8DecodeStep_length (b0 : Nat) (rest : List Nat) (c : Char) (r : List Nat)
    (h : utf8DecodeStep b0 rest = some (c, r)) : r.length ≤ rest.length := by
  unfold utf8DecodeStep at h
  repeat' split at h
  all_goals (try cases h)
  all_goals (try simp)
  all_goals omega

theorem utf8DecodeA_fuel :
    ∀ fuel (l : List Nat), l.length ≤ fuel → utf8DecodeA fuel l = utf8DecodeA l.length l := by
  intro fuel
  induction fuel using Nat.strong_induction_on with
  | _ fuel ih =>
    intro l hl
    match fuel, l with
    | fuel, [] => cases fuel <;> rfl
    | 0, b0 :: rest => simp at hl
    | fuel + 1, b0 :: rest =>
      have hl' : rest.length ≤ fuel := by
        simp only [List.length_cons] at hl
        omega
      cases hs : utf8DecodeStep b0 rest with
      | none =>
        rw [utf8DecodeA, show (b0 :: rest).length = rest.length + 1 from rfl,
          utf8DecodeA, hs]
      | some cr =>
        have hlen := utf8DecodeStep_length b0 rest cr.1 cr.2 (by rw [hs])
        have h1 : utf8DecodeA fuel cr.2 = utf8DecodeA cr.2.length cr.2 :=
          ih fuel (by omega) cr.2 (by omega)
        have h2 : utf8DecodeA rest.length cr.2 = utf8DecodeA cr.2.length cr.2 :=
          ih rest.length (by omega) cr.2 hlen
        rw [utf8DecodeA, show (b0 :: rest).length = rest.length + 1 from rfl,
          utf8DecodeA, hs]
        dsimp only
        rw [h1, h2]

theorem utf8Decode_nil : utf8Decode [] = some [] := rfl

theorem utf8Decode_cons (b0 : Nat) (rest : List Nat) :
    utf8Decode (b0 :: rest) =
      match utf8DecodeStep b0 rest with
      | none => none
      | some cr => (utf8Decode cr.2).map (fun t => cr.1 :: t) := by
  unfold utf8Decode
  cases hs : utf8DecodeStep b0 rest with
  | none =>
    rw [show (b0 :: rest).length = rest.length + 1 from rfl, utf8DecodeA, hs]
  | some cr =>
    have hlen := utf8DecodeStep_length b0 rest cr.1 cr.2 (by rw [hs])
    rw [show (b0 :: rest).length = rest.length + 1 from rfl, utf8DecodeA, hs]
    dsimp only
    rw [utf8DecodeA_fuel rest.length cr.2 hlen]

theorem char_toNat_lt (c : Char) : c.toNat < 0x110000 := by
  have h := c.valid
  have e : c.toNat = c.val.toNat := rfl
  rw [e]
  rcases h with h | h <;> omega

theorem utf8DecodeStep_eq1 (b0 : Nat) (rest : List Nat) (h : b0 < 0x80) :
    utf8DecodeStep b0 rest = some (Char.ofNat b0, rest) := by
  unfold utf8DecodeStep
  rw [if_pos h]

theorem utf8DecodeStep_eq2 (b0 b1 : Nat) (r : List Nat)
    (h0 : 0xC0 ≤ b0) (h1 : b0 < 0xE0) (hc : contByte b1 = true) :
    utf8DecodeStep b0 (b1 :: r) =
      some (Char.ofNat ((b0 - 0xC0) * 0x40 + (b1 - 0x80)), r) := by
  unfold utf8DecodeStep
  rw [if_neg (by omega), if_neg (by omega), if_pos h1]
  simp [hc]

theorem utf8DecodeStep_eq3 (b0 b1 b2 : Nat) (r : List Nat)
    (h0 : 0xE0 ≤ b0) (h1 : b0 < 0xF0)
    (hc1 : contByte b1 = true) (hc2 : contByte b2 = true) :
    utf8DecodeStep b0 (b1 :: b2 :: r) =
      some (Char.ofNat ((b0 - 0xE0) * 0x1000 + (b1 - 0x80) * 0x40 + (b2 - 0x80)), r) := by
  unfold utf8DecodeStep
  rw [if_neg (by omega), if_neg (by omega), if_neg (by omega), if_pos h1]
  simp [hc1, hc2]

theorem utf8DecodeStep_eq4 (b0 b1 b2 b3 : Nat) (r : List Nat)
    (h0 : 0xF0 ≤ b0) (h1 : b0 < 0xF8)
    (hc1 : contByte b1 = true) (hc2 : contByte b2 = true) (hc3 : contByte b3 = true) :
    utf8DecodeStep b0 (b1 :: b2 :: b3 :: r) =
      some
        (Char.ofNat
          ((b0 - 0xF0) * 0x40000 + (b1 - 0x80) * 0x1000 + (b2 - 0x80) * 0x40 +
            (b3 - 0x80)), r) := by
  unfold utf8DecodeStep
  rw [if_neg (by omega), if_neg (by omega), if_neg (by omega), if_neg (by omega),
    if_pos h1]
  simp [hc1, hc2, hc3]

theorem utf8Decode_step1 (b0 : Nat) (r : List Nat) (h : b0 < 0x80) :
    utf8Decode (b0 :: r) = (utf8Decode r).map (fun t => Char.ofNat b0 :: t) := by
  rw [utf8Decode_cons, utf8DecodeStep_eq1 b0 r h]

theorem utf8Decode_step2 (b0 b1 : Nat) (r : List Nat)
    (h0 : 0xC0 ≤ b0) (h1 : b0 < 0xE0) (hc : contByte b1 = true) :
    utf8Decode (b0 :: b1 :: r) =
      (utf8Decode r).map
        (fun t => Char.ofNat ((b0 - 0xC0) * 0x40 + (b1 - 0x80)) :: t) := by
  rw [utf8Decode_cons, utf8DecodeStep_eq2 b0 b1 r h0 h1 hc]

theorem utf8Decode_step3 (b0 b1 b2 : Nat) (r : List Nat)
    (h0 : 0xE0 ≤ b0) (h1 : b0 < 0xF0)
    (hc1 : contByte b1 = true) (hc2 : contByte b2 = true) :
    utf8Decode (b0 :: b1 :: b2 :: r) =
      (utf8Decode r).map
        (fun t =>
          Char.ofNat ((b0 - 0xE0) * 0x1000 + (b1 - 0x80) * 0x40 + (b2 - 0x80)) :: t) := by
  rw [utf8Decode_cons, utf8DecodeStep_eq3 b0 b1 b2 r h0 h1 hc1 hc2]

theorem utf8Decode_step4 (b0 b1 b2 b3 : Nat) (r : List Nat)
    (h0 : 0xF0 ≤ b0) (h1 : b0 < 0xF8)
    (hc1 : contByte b1 = true) (hc2 : contByte b2 = true) (hc3 : contByte b3 = true) :
    utf8Decode (b0 :: b1 :: b2 :: b3 :: r) =
      (utf8Decode r).map
        (fun t =>
          Char.ofNat
            ((b0 - 0xF0) * 0x40000 + (b1 - 0x80) * 0x1000 +
              (b2 - 0x80) * 0x40 + (b3 - 0x80)) :: t) := by
  rw [utf8Decode_cons, utf8DecodeStep_eq4 b0 b1 b2 b3 r h0 h1 hc1 hc2 hc3]

theorem utf8Decode_encodeChar (c : Char) (r : List Nat) :
    utf8Decode (utf8EncodeChar c ++ r) =
      (utf8Decode r).map (fun t => c :: t) := by
  have hb : c.toNat < 0x110000 := char_toNat_lt c
  by_cases h1 : c.toNat < 0x80
  · rw [show utf8EncodeChar c = [c.toNat] by rw [utf8EncodeChar, if_pos h1]]
    rw [List.cons_append, List.nil_append, utf8Decode_step1 _ _ h1, Char.ofNat_toNat]
  · by_cases h2 : c.toNat < 0x800
    · rw [show utf8EncodeChar c = [0xC0 + c.toNat / 0x40, 0x80 + c.toNat % 0x40] by
        rw [utf8EncodeChar, if_neg h1, if_pos h2]]
      have hd : c.toNat / 0x40 < 0x20 := by
        have := Nat.div_le_div_right (c := 0x40) (Nat.le_of_lt_succ (Nat.lt_succ_of_lt h2))
        omega
      have hm : c.toNat % 0x40 < 0x40 := Nat.mod_lt _ (by norm_num)
      rw [List.cons_append, List.cons_append, List.nil_append,
        utf8Decode_step2 _ _ _ (by omega) (by omega) (by simp [contByte]; omega)]
      have hdm := Nat.div_add_mod c.toNat 0x40
      have harith :
          (0xC0 + c.toNat / 0x40 - 0xC0) * 0x40 + (0x80 + c.toNat % 0x40 - 0x80) =
            c.toNat := by omega
      rw [harith, Char.ofNat_toNat]
    · by_cases h3 : c.toNat < 0x10000
      · rw [show utf8EncodeChar c =
            [0xE0 + c.toNat / 0x1000, 0x80 + c.toNat / 0x40 % 0x40,
              0x80 + c.toNat % 0x40] by
          rw [utf8EncodeChar, if_neg h1, if_neg h2, if_pos h3]]
        have hd : c.toNat / 0x1000 < 0x10 := by
          have := Nat.div_le_div_right (c := 0x1000) (Nat.le_of_lt_succ (Nat.lt_succ_of_lt h3))
          omega
        have hm1 : c.toNat / 0x40 % 0x40 < 0x40 := Nat.mod_lt _ (by norm_num)
        have hm2 : c.toNat % 0x40 < 0x40 := Nat.mod_lt _ (by norm_num)
        rw [List.cons_append, List.cons_append, List.cons_append, List.nil_append,
          utf8Decode_step3 _ _ _ _ (by omega) (by omega)
            (by simp [contByte]; omega) (by simp [contByte]; omega)]
        have hdd : c.toNat / 0x40 / 0x40 = c.toNat / 0x1000 := by
          rw [Nat.div_div_eq_div_mul]
        have hdm1 := Nat.div_add_mod c.toNat 0x40
        have hdm2 := Nat.div_add_mod (c.toNat / 0x40) 0x40
        have harith :
            (0xE0 + c.toNat / 0x1000 - 0xE0) * 0x1000 +
              (0x80 + c.toNat / 0x40 % 0x40 - 0x80) * 0x40 +
              (0x80 + c.toNat % 0x40 - 0x80) = c.toNat := by omega
        rw [harith, Char.ofNat_toNat]
      · rw [show utf8EncodeChar c =
            [0xF0 + c.toNat / 0x40000, 0x80 + c.toNat / 0x1000 % 0x40,
              0x80 + c.toNat / 0x40 % 0x40, 0x80 + c.toNat % 0x40] by
          rw [utf8EncodeChar, if_neg h1, if_neg h2, if_neg h3]]
        have hd : c.toNat / 0x40000 < 5 := by
          have := Nat.div_le_div_right (c := 0x40000) (Nat.le_of_lt_succ (Nat.lt_succ_of_lt hb))
          omega
        have hm1 : c.toNat / 0x1000 % 0x40 < 0x40 := Nat.mod_lt _ (by norm_num)
        have hm2 : c.toNat / 0x40 % 0x40 < 0x40 := Nat.mod_lt _ (by norm_num)
        have hm3 : c.toNat % 0x40 < 0x40 := Nat.mod_lt _ (by norm_num)
        rw [List.cons_append, List.cons_append, List.cons_append, List.cons_append,
          List.nil_append,
          utf8Decode_step4 _ _ _ _ _ (by omega) (by omega)
            (by simp [contByte]; omega) (by simp [contByte]; omega)
            (by simp [contByte]; omega)]
        have hdd1 : c.toNat / 0x40 / 0x40 = c.toNat / 0x1000 := by
          rw [Nat.div_div_eq_div_mul]
        have hdd2 : c.toNat / 0x1000 / 0x40 = c.toNat / 0x40000 := by
          rw [Nat.div_div_eq_div_mul]
        have hdm1 := Nat.div_add_mod c.toNat 0x40
        have hdm2 := Nat.div_add_mod (c.toNat / 0x40) 0x40
        have hdm3 := Nat.div_add_mod (c.toNat / 0x1000) 0x40
        have harith :
            (0xF0 + c.toNat / 0x40000 - 0xF0) * 0x40000 +
              (0x80 + c.toNat / 0x1000 % 0x40 - 0x80) * 0x1000 +
              (0x80 + c.toNat / 0x40 % 0x40 - 0x80) * 0x40 +
              (0x80 + c.toNat % 0x40 - 0x80) = c.toNat := by omega
        rw [harith, Char.ofNat_toNat]

theorem utf8Decode_encode_append (s : Str) (r : List Nat) :
    utf8Decode (utf8Encode s ++ r) = (utf8Decode r).map (fun t => s ++ t) := by
  induction s with
  | nil =>
    simp only [utf8Encode, List.nil_append]
    cases utf8Decode r <;> simp
  | cons c cs ih =>
    simp only [utf8Encode, List.append_assoc]
    rw [utf8Decode_encodeChar, ih]
    cases utf8Decode r <;> simp

theorem utf8_roundtrip (s : Str) : utf8Decode (utf8Encode s) = some s := by
  have h := utf8Decode_encode_append s []
  simpa [utf8Decode_nil] using h

theorem utf8EncodeChar_lt_256 (c : Char) : ∀ x ∈ utf8EncodeChar c, x < 256 := by
  have hb : c.toNat < 0x110000 := char_toNat_lt c
  intro x hx
  by_cases h1 : c.toNat < 0x80
  · rw [utf8EncodeChar, if_pos h1] at hx
    simp only [List.mem_singleton] at hx
    omega
  · by_cases h2 : c.toNat < 0x800
    · rw [utf8EncodeChar, if_neg h1, if_pos h2] at hx
      have hd : c.toNat / 0x40 < 0x20 := by
        have := Nat.div_le_div_right (c := 0x40) (Nat.le_of_lt_succ (Nat.lt_succ_of_lt h2))
        omega
      have hm : c.toNat % 0x40 < 0x40 := Nat.mod_lt _ (by norm_num)
      simp only [List.mem_cons, List.mem_singleton, List.not_mem_nil, or_false] at hx
      rcases hx with hx | hx <;> omega
    · by_cases h3 : c.toNat < 0x10000
      · rw [utf8EncodeChar, if_neg h1, if_neg h2, if_pos h3] at hx
        have hd : c.toNat / 0x1000 < 0x10 := by
          have := Nat.div_le_div_right (c := 0x1000) (Nat.le_of_lt_succ (Nat.lt_succ_of_lt h3))
          omega
        have hm1 : c.toNat / 0x40 % 0x40 < 0x40 := Nat.mod_lt _ (by norm_num)
        have hm2 : c.toNat % 0x40 < 0x40 := Nat.mod_lt _ (by norm_num)
        simp only [List.mem_cons, List.mem_singleton, List.not_mem_nil, or_false] at hx
        rcases hx with hx | hx | hx <;> omega
      · rw [utf8EncodeChar, if_neg h1, if_neg h2, if_neg h3] at hx
        have hd : c.toNat / 0x40000 < 5 := by
          have := Nat.div_le_div_right (c := 0x40000) (Nat.le_of_lt_succ (Nat.lt_succ_of_lt hb))
          omega
        have hm1 : c.toNat / 0x1000 % 0x40 < 0x40 := Nat.mod_lt _ (by norm_num)
        have hm2 : c.toNat / 0x40 % 0x40 < 0x40 := Nat.mod_lt _ (by norm_num)
        have hm3 : c.toNat % 0x40 < 0x40 := Nat.mod_lt _ (by norm_num)
        simp only [List.mem_cons, List.mem_singleton, List.not_mem_nil, or_false] at hx
        rcases hx with hx | hx | hx | hx <;> omega

theorem utf8Encode_lt_256 (s : Str) : ∀ x ∈ utf8Encode s, x < 256 := by
  induction s with
  | nil => simp [utf8Encode]
  | cons c cs ih =>
    intro x hx
    simp only [utf8Encode, List.mem_append] at hx
    rcases hx with hx | hx
    · exact utf8EncodeChar_lt_256 c x hx
    · exact ih x hx

theorem utf8Decode_ascii (b : List Nat) (h : ∀ x ∈ b, x < 0x80) :
    utf8Decode b = some (b.map Char.ofNat) := by
  induction b with
  | nil => simp [utf8Decode_nil]
  | cons x r ih =>
    rw [utf8Decode_step1 x r (h x (by simp)), ih (fun y hy => h y (by simp [hy]))]
    simp

theorem char_toNat_ofNat_ascii (x : Nat) (h : x < 0x80) :
    (Char.ofNat x).toNat = x := by
  have hv : Nat.isValidChar x := Or.inl (by omega)
  unfold Char.ofNat
  rw [dif_pos hv]
  rfl

theorem utf8Encode_map_ofNat_ascii (b : List Nat) (h : ∀ x ∈ b, x < 0x80) :
    utf8Encode (b.map Char.ofNat) = b := by
  induction b with
  | nil => simp [utf8Encode]
  | cons x r ih =>
    have hx : x < 0x80 := h x (by simp)
    simp only [List.map_cons, utf8Encode]
    rw [ih (fun y hy => h y (by simp [hy]))]
    rw [utf8EncodeChar, char_toNat_ofNat_ascii x hx, if_pos hx]
    simp

theorem natReprA_fuel :
    ∀ fuel n, n < fuel → natReprA fuel n = natReprA (n + 1) n := by
  intro fuel
  induction fuel using Nat.strong_induction_on with
  | _ fuel ih =>
    intro n hn
    match fuel with
    | 0 => omega
    | f + 1 =>
      rw [natReprA, natReprA]
      by_cases h : n < 10
      · rw [if_pos h, if_pos h]
      · rw [if_neg h, if_neg h]
        have hd : n / 10 < n := Nat.div_lt_self (by omega) (by omega)
        rw [ih f (by omega) (n / 10) (by omega), ih n (by omega) (n / 10) hd]

theorem natRepr_eq (n : Nat) :
    natRepr n = if n < 10 then [digitChar n] else natRepr (n / 10) ++ [digitChar (n % 10)] := by
  unfold natRepr
  rw [natReprA]
  by_cases h : n < 10
  · rw [if_pos h, if_pos h]
  · rw [if_neg h, if_neg h]
    have hd : n / 10 < n := Nat.div_lt_self (by omega) (by omega)
    rw [natReprA_fuel n (n / 10) hd]

/-! ## JSON codec round-trip -/

theorem digitChar_toNat (d : Nat) (h : d < 10) : (digitChar d).toNat = 48 + d :=
  char_toNat_ofNat_ascii _ (by omega)

theorem isDigitC_digitChar (d : Nat) (h : d < 10) : isDigitC (digitChar d) = true := by
  simp only [isDigitC, digitChar_toNat d h, decide_eq_true_eq]
  omega

theorem natRepr_head (n : Nat) :
    ∃ d ds, natRepr n = d :: ds ∧ isDigitC d = true := by
  induction n using Nat.strong_induction_on with
  | _ n ih =>
    by_cases h : n < 10
    · exact ⟨digitChar n, [], by rw [natRepr_eq, if_pos h], isDigitC_digitChar n h⟩
    · obtain ⟨d, ds, hrepr, hdig⟩ :=
        ih (n / 10) (Nat.div_lt_self (by omega) (by omega))
      refine ⟨d, ds ++ [digitChar (n % 10)], ?_, hdig⟩
      rw [natRepr_eq, if_neg h, hrepr]
      simp

theorem parseNatAux_digit (acc : Nat) (c : Char) (cs : Str) (h : isDigitC c = true) :
    parseNatAux acc (c :: cs) = parseNatAux (acc * 10 + (c.toNat - 48)) cs := by
  rw [parseNatAux, if_pos h]

theorem parseNatAux_repr (n : Nat) :
    ∀ acc rest, parseNatAux acc (natRepr n ++ rest) =
      parseNatAux (acc * 10 ^ (natRepr n).length + n) rest := by
  induction n using Nat.strong_induction_on with
  | _ n ih =>
    intro acc rest
    by_cases h : n < 10
    · rw [natRepr_eq, if_pos h]
      rw [List.cons_append, List.nil_append,
        parseNatAux_digit acc _ rest (isDigitC_digitChar n h)]
      rw [digitChar_toNat n h]
      norm_num
    · rw [natRepr_eq, if_neg h]
      rw [List.append_assoc, ih (n / 10) (Nat.div_lt_self (by omega) (by omega))]
      rw [List.cons_append, List.nil_append,
        parseNatAux_digit _ _ rest (isDigitC_digitChar (n % 10) (by omega))]
      rw [digitChar_toNat (n % 10) (by omega)]
      congr 1
      have e3 : n % 10 * 1 = n % 10 := by omega
      have e1 : (acc * 10 ^ (natRepr (n / 10)).length + n / 10) * 10 + (48 + n % 10 - 48) =
          acc * (10 ^ (natRepr (n / 10)).length * 10) + (n / 10 * 10 + n % 10) := by ring_nf; omega
      have e2 : n / 10 * 10 + n % 10 = n := by omega
      rw [e1, e2]
      have e4 : ((natRepr (n / 10)) ++ [digitChar (n % 10)]).length =
          (natRepr (n / 10)).length + 1 := by simp
      rw [e4, pow_succ]

theorem parseNatAux_nil (acc : Nat) : parseNatAux acc [] = (acc, []) := by
  rw [parseNatAux]

theorem parseNatAux_stop (acc : Nat) (c : Char) (cs : Str) (h : isDigitC c = false) :
    parseNatAux acc (c :: cs) = (acc, c :: cs) := by
  rw [parseNatAux, if_neg (by simp [h])]

theorem parseNatAux_repr_stop (n : Nat) (c : Char) (rest : Str) (h : isDigitC c = false) :
    parseNatAux 0 (natRepr n ++ c :: rest) = (n, c :: rest) := by
  rw [parseNatAux_repr n 0 (c :: rest)]
  simp only [Nat.zero_mul, Nat.zero_add]
  exact parseNatAux_stop n c rest h

theorem parseLen_repr (n : Nat) (rest : Str) :
    parseLen (natRepr n ++ ':' :: rest) = some (n, rest) := by
  unfold parseLen
  rw [parseNatAux_repr_stop n ':' rest (by decide)]
  rfl

theorem parseIntBody_repr (neg : Bool) (k : Nat) (rest : Str) :
    parseIntBody neg (natRepr k ++ ';' :: rest) =
      some (.int (if neg then -(k : Int) else (k : Int)), rest) := by
  unfold parseIntBody
  rw [parseNatAux_repr_stop k ';' rest (by decide)]
  rfl

theorem isDigitC_ne (d : Char) (c : Char) (h : isDigitC d = true)
    (hc : isDigitC c = false) : ¬ (d = c) := by
  intro e
  rw [e, hc] at h
  exact Bool.noConfusion h

theorem printVal_head (v : Json) :
    ∃ c cs, printVal v = c :: cs ∧ ¬ c = ']' ∧ ¬ c = cbrace := by
  cases v with
  | null => exact ⟨'n', _, rfl, by decide, by decide⟩
  | bool b =>
    cases b with
    | true => exact ⟨'t', _, rfl, by decide, by decide⟩
    | false => exact ⟨'f', _, rfl, by decide, by decide⟩
  | int n =>
    by_cases hn : n < 0
    · refine ⟨'-', natRepr n.natAbs ++ [';'], ?_, by decide, by decide⟩
      rw [show printVal (.int n) = intRepr n ++ [';'] from rfl, intRepr, if_pos hn]
      rfl
    · obtain ⟨d, ds, hrepr, hdig⟩ := natRepr_head n.natAbs
      refine ⟨d, ds ++ [';'], ?_, isDigitC_ne d ']' hdig (by decide),
        isDigitC_ne d cbrace hdig (by decide)⟩
      rw [show printVal (.int n) = intRepr n ++ [';'] from rfl, intRepr, if_neg hn, hrepr]
      rfl
  | str s => exact ⟨'"', _, rfl, by decide, by decide⟩
  | arr a => exact ⟨'[', _, rfl, by decide, by decide⟩
  | obj o => exact ⟨obrace, _, rfl, by decide, by decide⟩

mutual
theorem jsize_le_print (v : Json) : jsize v ≤ (printVal v).length := by
  cases v with
  | null => simp [jsize, printVal]
  | bool b => cases b <;> simp [jsize, printVal]
  | int n => simp [jsize, printVal]
  | str s => simp [jsize, printVal]
  | arr a =>
    have := jsizeA_le_print a
    simp only [jsize, printVal, List.length_cons, List.length_append]
    omega
  | obj o =>
    have := jsizeO_le_print o
    simp only [jsize, printVal, List.length_cons, List.length_append]
    omega

theorem jsizeA_le_print (a : JArr) : jsizeA a ≤ (printArr a).length + 1 := by
  cases a with
  | nil => simp [jsizeA, printArr]
  | cons v tl =>
    have h1 := jsize_le_print v
    have h2 := jsizeA_le_print tl
    simp only [jsizeA, printArr, List.length_append]
    omega

theorem jsizeO_le_print (o : JObj) : jsizeO o ≤ (printObj o).length + 1 := by
  cases o with
  | nil => simp [jsizeO, printObj]
  | cons k v tl =>
    have h1 := jsize_le_print v
    have h2 := jsizeO_le_print tl
    simp only [jsizeO, printObj, List.length_cons, List.length_append]
    omega
end

theorem jsize_pos (v : Json) : 1 ≤ jsize v := by
  cases v <;> simp [jsize]

theorem jsizeA_pos (a : JArr) : 1 ≤ jsizeA a := by
  cases a with
  | nil => simp [jsizeA]
  | cons v tl =>
    have := jsize_pos v
    simp only [jsizeA]
    omega

theorem jsizeO_pos (o : JObj) : 1 ≤ jsizeO o := by
  cases o with
  | nil => simp [jsizeO]
  | cons k v tl =>
    have := jsize_pos v
    simp only [jsizeO]
    omega

theorem unescCR_cons_ne (c : Char) (t : Str) (hc : ¬ (c = '\\')) :
    unescCR (c :: t) = c :: unescCR t := by
  cases t with
  | nil => rfl
  | cons c2 cs => rw [unescCR, if_neg hc]

theorem unescCR_escCR (s : Str) : unescCR (escCR s) = s := by
  induction s with
  | nil => rfl
  | cons c cs ih =>
    rw [escCR]
    by_cases hr : c = '\r'
    · rw [if_pos hr, unescCR, if_pos rfl, if_pos rfl, ih, hr]
    · rw [if_neg hr]
      by_cases hb : c = '\\'
      · rw [if_pos hb, unescCR, if_pos rfl, if_neg (by decide), if_pos rfl, ih, hb]
      · rw [if_neg hb, unescCR_cons_ne c (escCR cs) hb, ih]

theorem escCR_no_cr (s : Str) : '\r' ∉ escCR s := by
  induction s with
  | nil => simp [escCR]
  | cons c cs ih =>
    rw [escCR]
    by_cases hr : c = '\r'
    · rw [if_pos hr]
      intro hmem
      rcases List.mem_cons.mp hmem with h | hmem2
      · exact absurd h (by decide)
      rcases List.mem_cons.mp hmem2 with h | h
      · exact absurd h (by decide)
      · exact ih h
    · rw [if_neg hr]
      by_cases hb : c = '\\'
      · rw [if_pos hb]
        intro hmem
        rcases List.mem_cons.mp hmem with h | hmem2
        · exact absurd h (by decide)
        rcases List.mem_cons.mp hmem2 with h | h
        · exact absurd h (by decide)
        · exact ih h
      · rw [if_neg hb]
        intro hmem
        rcases List.mem_cons.mp hmem with h | h
        · exact hr h.symm
        · exact ih h

theorem univNewlines_id (s : Str) (h : '\r' ∉ s) : univNewlines s = s := by
  induction s with
  | nil => rfl
  | cons c cs ih =>
    have hc : ¬ (c = '\r') := fun e => h (by rw [← e]; exact List.mem_cons_self c cs)
    have htl : '\r' ∉ cs := fun m => h (List.mem_cons_of_mem c m)
    cases cs with
    | nil => rw [univNewlines, if_neg hc]
    | cons c2 cs2 => rw [univNewlines, if_neg hc, ih htl]

theorem natReprA_no_cr (fuel : Nat) : ∀ n : Nat, '\r' ∉ natReprA fuel n := by
  induction fuel with
  | zero => intro n; simp [natReprA]
  | succ f ih =>
    intro n
    rw [natReprA]
    by_cases hn : n < 10
    · rw [if_pos hn]
      intro hmem
      rcases List.mem_cons.mp hmem with h | h
      · have ht := digitChar_toNat n (by omega)
        rw [← h] at ht
        have h13 : ('\r').toNat = 13 := rfl
        omega
      · cases h
    · rw [if_neg hn]
      intro hmem
      rcases List.mem_append.mp hmem with h | h
      · exact ih (n / 10) h
      · rcases List.mem_cons.mp h with h2 | h2
        · have ht := digitChar_toNat (n % 10) (Nat.mod_lt _ (by norm_num))
          rw [← h2] at ht
          have h13 : ('\r').toNat = 13 := rfl
          omega
        · cases h2

theorem natRepr_no_cr (n : Nat) : '\r' ∉ natRepr n := natReprA_no_cr (n + 1) n

theorem intRepr_no_cr (n : Int) : '\r' ∉ intRepr n := by
  rw [intRepr]
  by_cases hn : n < 0
  · rw [if_pos hn]
    intro hmem
    rcases List.mem_cons.mp hmem with h | h
    · exact absurd h (by decide)
    · exact natRepr_no_cr n.natAbs h
  · rw [if_neg hn]
    exact natRepr_no_cr n.natAbs

mutual
theorem printVal_no_cr (v : Json) : '\r' ∉ printVal v := by
  cases v with
  | null => decide
  | bool b => cases b <;> decide
  | int n =>
    rw [show printVal (.int n) = intRepr n ++ [';'] from rfl]
    intro hmem
    rcases List.mem_append.mp hmem with h | h
    · exact intRepr_no_cr n h
    · rcases List.mem_cons.mp h with h2 | h2
      · exact absurd h2 (by decide)
      · cases h2
  | str s =>
    rw [show printVal (.str s) =
      '"' :: natRepr (escCR s).length ++ ':' :: escCR s from rfl]
    intro hmem
    rcases List.mem_cons.mp hmem with h | h
    · exact absurd h (by decide)
    rcases List.mem_append.mp h with h2 | h2
    · exact natRepr_no_cr _ h2
    rcases List.mem_cons.mp h2 with h3 | h3
    · exact absurd h3 (by decide)
    · exact escCR_no_cr s h3
  | arr a =>
    rw [show printVal (.arr a) = '[' :: printArr a ++ [']'] from rfl]
    intro hmem
    rcases List.mem_cons.mp hmem with h | h
    · exact absurd h (by decide)
    rcases List.mem_append.mp h with h2 | h2
    · exact printArr_no_cr a h2
    rcases List.mem_cons.mp h2 with h3 | h3
    · exact absurd h3 (by decide)
    · cases h3
  | obj o =>
    rw [show printVal (.obj o) = obrace :: printObj o ++ [cbrace] from rfl]
    intro hmem
    rcases List.mem_cons.mp hmem with h | h
    · exact absurd h (by decide)
    rcases List.mem_append.mp h with h2 | h2
    · exact printObj_no_cr o h2
    rcases List.mem_cons.mp h2 with h3 | h3
    · exact absurd h3 (by decide)
    · cases h3

theorem printArr_no_cr (a : JArr) : '\r' ∉ printArr a := by
  cases a with
  | nil => simp [printArr]
  | cons v tl =>
    rw [show printArr (.cons v tl) = printVal v ++ printArr tl from rfl]
    intro hmem
    rcases List.mem_append.mp hmem with h | h
    · exact printVal_no_cr v h
    · exact printArr_no_cr tl h

theorem printObj_no_cr (o : JObj) : '\r' ∉ printObj o := by
  cases o with
  | nil => simp [printObj]
  | cons k v tl =>
    rw [show printObj (.cons k v tl) =
      'K' :: natRepr (escCR k).length ++ ':' :: escCR k ++ printVal v ++ printObj tl
      from rfl]
    intro hmem
    rcases List.mem_cons.mp hmem with h | h
    · exact absurd h (by decide)
    rcases List.mem_append.mp h with h2 | h2
    · rcases List.mem_append.mp h2 with h3 | h3
      · rcases List.mem_append.mp h3 with h4 | h4
        · exact natRepr_no_cr _ h4
        · rcases List.mem_cons.mp h4 with h5 | h5
          · exact absurd h5 (by decide)
          · exact escCR_no_cr k h5
      · exact printVal_no_cr v h3
    · exact printObj_no_cr tl h2
end

mutual
theorem parseVal_print (v : Json) (fuel : Nat) (rest : Str) (h : jsize v ≤ fuel) :
    parseVal fuel (printVal v ++ rest) = some (v, rest) := by
  match fuel with
  | 0 => exact absurd h (by have := jsize_pos v; omega)
  | f + 1 =>
    cases v with
    | null =>
      show parseVal (f + 1) ('n' :: ('u' :: 'l' :: 'l' :: rest)) = _
      rw [parseVal, if_pos rfl]
      rfl
    | bool b =>
      cases b with
      | true =>
        show parseVal (f + 1) ('t' :: ('r' :: 'u' :: 'e' :: rest)) = _
        rw [parseVal, if_neg (by decide), if_pos rfl]
        rfl
      | false =>
        show parseVal (f + 1) ('f' :: ('a' :: 'l' :: 's' :: 'e' :: rest)) = _
        rw [parseVal, if_neg (by decide), if_neg (by decide), if_pos rfl]
        rfl
    | int n =>
      by_cases hn : n < 0
      · show parseVal (f + 1) (intRepr n ++ [';'] ++ rest) = _
        rw [intRepr, if_pos hn]
        rw [List.append_assoc, List.cons_append]
        rw [parseVal, if_neg (by decide), if_neg (by decide), if_neg (by decide),
          if_neg (by decide), if_neg (by decide), if_neg (by decide), if_pos rfl]
        rw [show [';'] ++ rest = ';' :: rest from rfl]
        rw [parseIntBody_repr true n.natAbs rest]
        have e : (if (true : Bool) then -((n.natAbs : Int)) else (n.natAbs : Int)) = n := by
          rw [if_pos rfl]
          omega
        rw [e]
      · show parseVal (f + 1) (intRepr n ++ [';'] ++ rest) = _
        rw [intRepr, if_neg hn]
        obtain ⟨d, ds, hrepr, hdig⟩ := natRepr_head n.natAbs
        rw [hrepr, List.append_assoc, List.cons_append]
        rw [parseVal, if_neg (isDigitC_ne d 'n' hdig (by decide)),
          if_neg (isDigitC_ne d 't' hdig (by decide)),
          if_neg (isDigitC_ne d 'f' hdig (by decide)),
          if_neg (isDigitC_ne d '"' hdig (by decide)),
          if_neg (isDigitC_ne d '[' hdig (by decide)),
          if_neg (isDigitC_ne d obrace hdig (by decide)),
          if_neg (isDigitC_ne d '-' hdig (by decide)), if_pos hdig]
        rw [show d :: (ds ++ ([';'] ++ rest)) = (d :: ds) ++ (';' :: rest) by simp]
        rw [← hrepr, parseIntBody_repr false n.natAbs rest]
        have e : (if (false : Bool) then -((n.natAbs : Int)) else ((n.natAbs : Int))) = n := by
          rw [if_neg (by decide)]
          omega
        rw [e]
    | str s =>
      show parseVal (f + 1)
        ('"' :: (natRepr (escCR s).length ++ ':' :: escCR s ++ rest)) = _
      rw [parseVal, if_neg (by decide), if_neg (by decide), if_neg (by decide),
        if_pos rfl]
      unfold parseStrBody
      rw [show natRepr (escCR s).length ++ ':' :: escCR s ++ rest =
        natRepr (escCR s).length ++ ':' :: (escCR s ++ rest) by simp]
      rw [parseLen_repr]
      simp only [Option.map_some']
      rw [List.take_left, List.drop_left, unescCR_escCR]
    | arr a =>
      simp only [jsize] at h
      rw [show printVal (.arr a) ++ rest = '[' :: (printArr a ++ (']' :: rest)) by
        simp [printVal]]
      rw [parseVal, if_neg (by decide), if_neg (by decide), if_neg (by decide),
        if_neg (by decide), if_pos rfl]
      rw [parseItems_print a f rest (by omega)]
      rfl
    | obj o =>
      simp only [jsize] at h
      rw [show printVal (.obj o) ++ rest = obrace :: (printObj o ++ (cbrace :: rest)) by
        simp [printVal]]
      rw [parseVal, if_neg (by decide), if_neg (by decide), if_neg (by decide),
        if_neg (by decide), if_neg (by decide), if_pos rfl]
      rw [parseFields_print o f rest (by omega)]
      rfl

theorem parseItems_print (a : JArr) (fuel : Nat) (rest : Str) (h : jsizeA a ≤ fuel) :
    parseItems fuel (printArr a ++ (']' :: rest)) = some (a, rest) := by
  match fuel with
  | 0 => exact absurd h (by have := jsizeA_pos a; omega)
  | f + 1 =>
    cases a with
    | nil =>
      show parseItems (f + 1) (']' :: rest) = _
      rw [parseItems, if_pos rfl]
    | cons v tl =>
      simp only [jsizeA] at h
      have hv := jsize_pos v
      have htl := jsizeA_pos tl
      obtain ⟨c, cs, hpv, hne1, _⟩ := printVal_head v
      rw [show printArr (.cons v tl) ++ (']' :: rest) =
        c :: (cs ++ (printArr tl ++ (']' :: rest))) by
        rw [show printArr (.cons v tl) = printVal v ++ printArr tl from rfl, hpv]
        simp]
      rw [parseItems, if_neg hne1]
      rw [show c :: (cs ++ (printArr tl ++ (']' :: rest))) =
        printVal v ++ (printArr tl ++ (']' :: rest)) by rw [hpv]; rfl]
      rw [parseVal_print v f _ (by omega)]
      simp only [Option.some_bind]
      rw [parseItems_print tl f rest (by omega)]
      rfl

theorem parseFields_print (o : JObj) (fuel : Nat) (rest : Str) (h : jsizeO o ≤ fuel) :
    parseFields fuel (printObj o ++ (cbrace :: rest)) = some (o, rest) := by
  match fuel with
  | 0 => exact absurd h (by have := jsizeO_pos o; omega)
  | f + 1 =>
    cases o with
    | nil =>
      show parseFields (f + 1) (cbrace :: rest) = _
      rw [parseFields, if_pos rfl]
    | cons k v tl =>
      simp only [jsizeO] at h
      have hv := jsize_pos v
      have htl := jsizeO_pos tl
      rw [show printObj (.cons k v tl) ++ (cbrace :: rest) =
        'K' :: (natRepr (escCR k).length ++ ':' ::
          (escCR k ++ (printVal v ++ (printObj tl ++ (cbrace :: rest))))) by
        rw [show printObj (.cons k v tl) =
          'K' :: natRepr (escCR k).length ++ ':' :: escCR k ++ printVal v ++ printObj tl
          from rfl]
        simp]
      rw [parseFields, if_neg (by decide), if_pos rfl]
      rw [parseLen_repr]
      simp only [Option.some_bind]
      rw [List.drop_left]
      rw [parseVal_print v f _ (by omega)]
      simp only [Option.some_bind]
      rw [parseFields_print tl f rest (by omega)]
      simp only [Option.map_some']
      rw [List.take_left, unescCR_escCR]
end

theorem jsonLoads_dumps (v : Json) : jsonLoads (jsonDumps v) = some v := by
  unfold jsonLoads jsonDumps
  have h := parseVal_print v ((printVal v).length + 1) []
    (Nat.le_succ_of_le (jsize_le_print v))
  rw [List.append_nil] at h
  rw [h]

theorem utf8Encode_marker : utf8Encode markerStr = markerBytes := by decide

theorem startsWithList_cons_ne {α : Type} [DecidableEq α] (a : α) (s : List α)
    (b : α) (p : List α) (h : ¬ a = b) :
    startsWithList (a :: s) (b :: p) = false := by
  rw [startsWithList]
  simp [h]

theorem printVal_not_marker (v : Json) :
    startsWithList (printVal v) markerStr = false := by
  cases v with
  | null => decide
  | bool b => cases b <;> decide
  | int n =>
    by_cases hn : n < 0
    · rw [show printVal (.int n) = intRepr n ++ [';'] from rfl, intRepr, if_pos hn]
      exact startsWithList_cons_ne '-' _ 'E' _ (by decide)
    · rw [show printVal (.int n) = intRepr n ++ [';'] from rfl, intRepr, if_neg hn]
      obtain ⟨d, ds, hrepr, hdig⟩ := natRepr_head n.natAbs
      rw [hrepr, List.cons_append]
      exact startsWithList_cons_ne d _ 'E' _ (isDigitC_ne d 'E' hdig (by decide))
  | str s => exact startsWithList_cons_ne '"' _ 'E' _ (by decide)
  | arr a => exact startsWithList_cons_ne '[' _ 'E' _ (by decide)
  | obj o => exact startsWithList_cons_ne obrace _ 'E' _ (by decide)

/-! ## Support lemmas: suffix tests, write/read inversion -/

theorem startsWithList_iff {α : Type} [DecidableEq α] (s p : List α) :
    startsWithList s p = true ↔ p <+: s := by
  induction p generalizing s with
  | nil => simp [startsWithList]
  | cons b pt ih =>
    cases s with
    | nil =>
      rw [startsWithList]
      simp
    | cons a st =>
      rw [startsWithList]
      simp only [Bool.and_eq_true, decide_eq_true_eq, ih st]
      constructor
      · rintro ⟨rfl, h⟩
        rcases h with ⟨t, ht⟩
        exact ⟨t, by rw [List.cons_append, ht]⟩
      · intro h
        rcases h with ⟨t, ht⟩
        injection ht with h1 h2
        exact ⟨h1.symm, ⟨t, h2⟩⟩

theorem endsWithL_iff (s p : Str) : endsWithL s p = true ↔ p <:+ s := by
  rw [endsWithL, startsWithList_iff]
  exact List.reverse_prefix

theorem lowerStr_suffix (s p : Str) (h : p <:+ s) : lowerStr p <:+ lowerStr s := by
  rcases h with ⟨t, ht⟩
  exact ⟨lowerStr t, by rw [← ht, lowerStr]; simp [lowerStr]⟩

theorem suffix_of_suffix_length_le {α : Type} (l1 l2 s : List α)
    (h1 : l1 <:+ s) (h2 : l2 <:+ s) (hl : l1.length ≤ l2.length) : l1 <:+ l2 := by
  rw [← List.reverse_prefix] at h1 h2 ⊢
  exact List.prefix_of_prefix_length_le h1 h2 (by simpa using hl)

theorem json_not_bin (name : Str) (h : endsWithL name ".json".data = true) :
    binSuffix (lowerStr name) = false := by
  by_contra hbin
  rw [Bool.not_eq_false, binSuffix, List.any_eq_true] at hbin
  obtain ⟨ext, hmem, hends⟩ := hbin
  rw [endsWithL_iff] at h hends
  have hjsonlower : lowerStr (".json".data) <:+ lowerStr name := lowerStr_suffix _ _ h
  have hj5 : lowerStr (".json".data) = ".json".data := by decide
  rw [hj5] at hjsonlower
  have hextlen : ext.length ≤ 5 := by
    simp only [binExts, List.mem_cons, List.not_mem_nil, or_false] at hmem
    rcases hmem with rfl | rfl | rfl | rfl | rfl | rfl | rfl | rfl | rfl | rfl | rfl | rfl | rfl <;> decide
  have hsub : ext <:+ ".json".data :=
    suffix_of_suffix_length_le ext (".json".data) (lowerStr name) hends hjsonlower
      (by simpa using hextlen)
  simp only [binExts, List.mem_cons, List.not_mem_nil, or_false] at hmem
  rcases hmem with rfl | rfl | rfl | rfl | rfl | rfl | rfl | rfl | rfl | rfl | rfl | rfl | rfl <;>
    revert hsub <;> decide

theorem find?_setFile_self (files : List (FsPath × List Nat)) (q : FsPath) (b : List Nat) :
    (setFile files q b).find? (fun e => decide (e.1 = q)) = some (q, b) := by
  rw [setFile, List.find?]
  simp

theorem getFile?_write (files : List (FsPath × List Nat)) (dirs faults : List FsPath)
    (q : FsPath) (b : List Nat) :
    getFile? ⟨setFile files q b, dirs, faults⟩ q = some b := by
  rw [getFile?]
  show ((setFile files q b).find? (fun e => decide (e.1 = q))).map _ = _
  rw [find?_setFile_self]
  rfl

theorem writeFile_ok (fs : Disk) (p : FsPath) (b : List Nat) (fs' : Disk)
    (h : writeFile fs p b = .ok fs') :
    pathMem (resolve p) fs.faults = false ∧ pathMem (resolve p) fs.dirs = false ∧
      pathMem (resolve p).dropLast fs.dirs = true ∧
      fs' = ⟨setFile fs.files (resolve p) b, fs.dirs, fs.faults⟩ := by
  rw [writeFile] at h
  by_cases h1 : pathMem (resolve p) fs.faults
  · rw [if_pos h1] at h
    exact absurd h (by simp)
  · rw [if_neg h1] at h
    by_cases h2 : pathMem (resolve p) fs.dirs
    · rw [if_pos h2] at h
      exact absurd h (by simp)
    · rw [if_neg h2] at h
      by_cases h3 : pathMem (resolve p).dropLast fs.dirs
      · rw [if_neg (by simp [h3])] at h
        injection h with h4
        refine ⟨by simp [h1], by simp [h2], by simp [h3], ?_⟩
        rw [← h4]
      · rw [if_pos (by simp [h3])] at h
        exact absurd h (by simp)

theorem makedirsIfNeeded_ok (fs : Disk) (dir : FsPath) (fs1 : Disk)
    (h : makedirsIfNeeded fs dir = .ok fs1) :
    fs1.files = fs.files ∧ fs1.faults = fs.faults ∧
      pathExists fs1 dir = true ∧
      (∀ q, pathMem q fs.dirs = true → pathMem q fs1.dirs = true) := by
  rw [makedirsIfNeeded] at h
  by_cases hex : pathExists fs dir
  · rw [if_neg (by simp [hex])] at h
    injection h with h1
    subst h1
    exact ⟨rfl, rfl, by simp [hex], fun q hq => hq⟩
  · rw [if_pos (by simp [hex]), makedirs] at h
    by_cases h1 : pathMem (resolve dir) fs.faults
    · rw [if_pos h1] at h
      exact absurd h (by simp)
    · rw [if_neg h1] at h
      by_cases h2 : (resolve dir).inits.any (fun r => hasFile fs r)
      · rw [if_pos h2] at h
        exact absurd h (by simp)
      · rw [if_neg h2] at h
        injection h with h3
        subst h3
        refine ⟨rfl, rfl, ?_, ?_⟩
        · have hself : resolve dir ∈ (resolve dir).inits := by
            simp [List.mem_inits]
          have hnot : pathMem (resolve dir) fs.dirs = false := by
            rw [pathExists] at hex
            simp only [Bool.or_eq_true, not_or, Bool.not_eq_true] at hex
            exact hex.2
          rw [pathExists, Bool.or_eq_true]
          right
          rw [pathMem, List.any_eq_true]
          refine ⟨resolve dir, ?_, by simp⟩
          show resolve dir ∈ fs.dirs ++ _
          rw [List.mem_append]
          right
          rw [List.mem_filter]
          exact ⟨hself, by simp [hnot]⟩
        · intro q hq
          rw [pathMem, List.any_eq_true] at hq ⊢
          obtain ⟨x, hx, hxq⟩ := hq
          exact ⟨x, by simp [List.mem_append, hx], hxq⟩

theorem save_file_ok (m : FileSystem) (fs : Disk) (name : Str) (content : Content)
    (temp ow enc : Bool) (fs' : Disk)
    (h : save_file m fs name content temp ow enc = (.bool true, fs')) :
    save_fileB m fs name content temp ow enc = (.ok (.bool true), fs') := by
  rw [save_file] at h
  rcases hb : save_fileB m fs name content temp ow enc with ⟨v, fs''⟩
  rw [hb] at h
  cases v with
  | ok v0 =>
    dsimp only at h
    injection h with h1 h2
    subst h1
    subst h2
    rfl
  | error e =>
    dsimp only at h
    injection h with h1 h2
    exact Value.noConfusion h1

theorem save_fileB_ok (m : FileSystem) (fs : Disk) (name : Str) (content : Content)
    (temp ow enc : Bool) (fs' : Disk)
    (h : save_fileB m fs name content temp ow enc = (.ok (.bool true), fs')) :
    ∃ fs1, makedirsIfNeeded fs (joinPath (base_path m temp) name).dropLast = .ok fs1 ∧
      (pathExists fs1 (joinPath (base_path m temp) name) && !ow) = false ∧
      writeFile fs1 (joinPath (base_path m temp) name)
        (saveBytes m.cipher name content enc) = .ok fs' := by
  rw [save_fileB] at h
  rcases hmk : makedirsIfNeeded fs (joinPath (base_path m temp) name).dropLast with e | fs1
  · rw [hmk] at h
    dsimp only at h
    injection h with h1 h2
    exact Except.noConfusion h1
  · rw [hmk] at h
    dsimp only at h
    by_cases hg : (pathExists fs1 (joinPath (base_path m temp) name) && !ow) = true
    · rw [if_pos hg] at h
      injection h with h1 h2
      injection h1 with h3
      exact Value.noConfusion h3
    · rw [if_neg hg] at h
      refine ⟨fs1, rfl, Bool.eq_false_iff.mpr hg, ?_⟩
      rcases hw : writeFile fs1 (joinPath (base_path m temp) name)
          (saveBytes m.cipher name content enc) with e | fs2
      · rw [hw] at h
        dsimp only at h
        injection h with h1 h2
        exact Except.noConfusion h1
      · rw [hw] at h
        dsimp only at h
        injection h with h1 h2
        rw [h2]

theorem readRaw_after_write (fs1 : Disk) (p : FsPath) (b : List Nat) (fs' : Disk)
    (hw : writeFile fs1 p b = .ok fs') : readRaw fs' p = .ok b := by
  obtain ⟨hf, hd, _, hfs'⟩ := writeFile_ok _ _ _ _ hw
  subst hfs'
  rw [readRaw]
  rw [if_neg (by simp only [Disk.faults]; simp [hf]),
    if_neg (by simp only [Disk.dirs]; simp [hd])]
  rw [show getFile? ⟨setFile fs1.files (resolve p) b, fs1.dirs, fs1.faults⟩ (resolve p) =
    some b from getFile?_write _ _ _ _ _]

theorem pathExists_after_write (fs1 : Disk) (p : FsPath) (b : List Nat) (fs' : Disk)
    (hw : writeFile fs1 p b = .ok fs') : pathExists fs' p = true := by
  obtain ⟨_, _, _, hfs'⟩ := writeFile_ok _ _ _ _ hw
  subst hfs'
  rw [pathExists, Bool.or_eq_true]
  left
  rw [hasFile, getFile?_write]
  rfl

theorem saveBytes_str_json (cipher : Cipher) (name T : Str)
    (hj : endsWithL name ".json".data = true) :
    saveBytes cipher name (.str T) false = utf8Encode (jsonDumps (.str T)) := by
  rw [show saveBytes cipher name (.str T) false =
    (if isDictOrListC (.str T) || endsWithL name ".json".data then
      utf8Encode (jsonDumps (contentToJson (.str T)))
    else utf8Encode (pyStr (.str T))) from rfl]
  rw [if_pos (by simp [isDictOrListC, hj])]
  rfl

theorem saveBytes_str_plain (cipher : Cipher) (name T : Str)
    (hj : endsWithL name ".json".data = false) :
    saveBytes cipher name (.str T) false = utf8Encode T := by
  rw [show saveBytes cipher name (.str T) false =
    (if isDictOrListC (.str T) || endsWithL name ".json".data then
      utf8Encode (jsonDumps (contentToJson (.str T)))
    else utf8Encode (pyStr (.str T))) from rfl]
  rw [if_neg (by simp [isDictOrListC, hj])]
  rfl

theorem saveBytes_str_enc (cipher : Cipher) (name T : Str) :
    saveBytes cipher name (.str T) true = markerBytes ++ cipher.enc (utf8Encode T) := rfl

theorem saveBytes_structured (cipher : Cipher) (name : Str) (j : Json)
    (hs : isDictOrListC (.structured j) = true) :
    saveBytes cipher name (.structured j) false = utf8Encode (jsonDumps j) := by
  rw [show saveBytes cipher name (.structured j) false =
    (if isDictOrListC (.structured j) || endsWithL name ".json".data then
      utf8Encode (jsonDumps (contentToJson (.structured j)))
    else utf8Encode (pyStr (.structured j))) from rfl]
  rw [if_pos (by simp [hs])]
  rfl

theorem saveBytes_structured_enc (cipher : Cipher) (name : Str) (j : Json) :
    saveBytes cipher name (.structured j) true =
      markerBytes ++ cipher.enc (utf8Encode (pyReprJ j)) := rfl

theorem read_fileB_text (m : FileSystem) (fs : Disk) (name : Str) (temp : Bool) (w : Str)
    (hraw : readRaw fs (get_path m name temp) = .ok (utf8Encode w))
    (hbin : binSuffix (lowerStr name) = false)
    (hmark : startsWithList w markerStr = false)
    (hjson : endsWithL name ".json".data = false)
    (hcr : '\r' ∉ w) :
    read_fileB m fs name temp = .ok (.str w) := by
  rw [read_fileB, hraw]
  dsimp only
  rw [if_neg (by simp [hbin]), utf8_roundtrip]
  dsimp only
  rw [univNewlines_id w hcr]
  rw [if_neg (by simp [hmark]), if_neg (by simp [hjson])]

theorem read_fileB_json (m : FileSystem) (fs : Disk) (name : Str) (temp : Bool) (j : Json)
    (hraw : readRaw fs (get_path m name temp) = .ok (utf8Encode (jsonDumps j)))
    (hbin : binSuffix (lowerStr name) = false)
    (hjson : endsWithL name ".json".data = true) :
    read_fileB m fs name temp = .ok (jsonToValue j) := by
  rw [read_fileB, hraw]
  dsimp only
  rw [if_neg (by simp [hbin]), utf8_roundtrip]
  dsimp only
  rw [univNewlines_id (jsonDumps j) (printVal_no_cr j)]
  rw [if_neg (by simp [show startsWithList (jsonDumps j) markerStr = false from
    printVal_not_marker j])]
  rw [if_pos (by simp [hjson]), jsonLoads_dumps]

theorem read_fileB_enc_text (m : FileSystem) (fs : Disk) (name : Str) (temp : Bool) (T : Str)
    (hraw : readRaw fs (get_path m name temp) =
      .ok (markerBytes ++ m.cipher.enc (utf8Encode T)))
    (hbin : binSuffix (lowerStr name) = false) :
    read_fileB m fs name temp = .ok (.str T) := by
  rw [read_fileB, hraw]
  dsimp only
  rw [if_neg (by simp [hbin])]
  have hascii : ∀ x ∈ markerBytes ++ m.cipher.enc (utf8Encode T), x < 0x80 := by
    intro x hx
    rw [List.mem_append] at hx
    rcases hx with hx | hx
    · simp only [markerBytes, List.mem_cons, List.not_mem_nil, or_false] at hx
      rcases hx with rfl | rfl | rfl <;> omega
    · exact m.cipher.enc_ascii _ x hx
  rw [utf8Decode_ascii _ hascii]
  dsimp only
  rw [show (markerBytes ++ m.cipher.enc (utf8Encode T)).map Char.ofNat =
      'E' :: ':' :: ':' :: (m.cipher.enc (utf8Encode T)).map Char.ofNat by
    rw [List.map_append]
    rfl]
  have hnocr : '\r' ∉ 'E' :: ':' :: ':' :: (m.cipher.enc (utf8Encode T)).map Char.ofNat := by
    intro hmem
    rcases List.mem_cons.mp hmem with h | hmem
    · exact absurd h (by decide)
    rcases List.mem_cons.mp hmem with h | hmem
    · exact absurd h (by decide)
    rcases List.mem_cons.mp hmem with h | hmem
    · exact absurd h (by decide)
    obtain ⟨x, hx, hox⟩ := List.mem_map.mp hmem
    have hxa : x < 0x80 := m.cipher.enc_ascii _ x hx
    have ht := char_toNat_ofNat_ascii x hxa
    rw [hox] at ht
    have h13 : ('\r').toNat = 13 := rfl
    have hx13 : x = 13 := by omega
    exact m.cipher.enc_no_cr (utf8Encode T) (hx13 ▸ hx)
  rw [univNewlines_id _ hnocr]
  rw [if_pos (by rw [markerStr]; simp [startsWithList])]
  rw [show ('E' :: ':' :: ':' :: (m.cipher.enc (utf8Encode T)).map Char.ofNat).drop 3 =
    (m.cipher.enc (utf8Encode T)).map Char.ofNat from rfl]
  rw [utf8Encode_map_ofNat_ascii _ (m.cipher.enc_ascii _)]
  rw [m.cipher.dec_enc _ (utf8Encode_lt_256 T)]
  dsimp only
  rw [utf8_roundtrip]

theorem read_after_save_text (m : FileSystem) (fs : Disk) (name T : Str)
    (temp ow : Bool) (fs' : Disk)
    (hbin : binSuffix (lowerStr name) = false)
    (hj_or : endsWithL name ".json".data = true ∨
      (startsWithList T markerStr = false ∧ '\r' ∉ T))
    (hsave : save_file m fs name (.str T) temp ow false = (.bool true, fs')) :
    read_file m fs' name temp = .str T := by
  have hB := save_file_ok m fs name (.str T) temp ow false fs' hsave
  obtain ⟨fs1, hmk, hguard, hw⟩ := save_fileB_ok m fs name (.str T) temp ow false fs' hB
  have hex : pathExists fs' (get_path m name temp) = true :=
    pathExists_after_write fs1 _ _ fs' hw
  have hraw : readRaw fs' (get_path m name temp) =
      .ok (saveBytes m.cipher name (.str T) false) :=
    readRaw_after_write fs1 _ _ fs' hw
  rw [read_file, if_neg (by simp [hex])]
  by_cases hj : endsWithL name ".json".data = true
  · rw [saveBytes_str_json m.cipher name T hj] at hraw
    rw [read_fileB_json m fs' name temp (.str T) hraw hbin hj]
    rfl
  · have hjf : endsWithL name ".json".data = false := Bool.eq_false_iff.mpr hj
    have hmc : startsWithList T markerStr = false ∧ '\r' ∉ T := by
      rcases hj_or with h | h
      · exact absurd h hj
      · exact h
    rw [saveBytes_str_plain m.cipher name T hjf] at hraw
    rw [read_fileB_text m fs' name temp T hraw hbin hmc.1 hjf hmc.2]

theorem find?_filter_ne (files : List (FsPath × List Nat)) (P q : FsPath) (hne : q ≠ P) :
    (files.filter (fun e => !(decide (e.1 = P)))).find? (fun e => decide (e.1 = q)) =
      files.find? (fun e => decide (e.1 = q)) := by
  induction files with
  | nil => rfl
  | cons e r ih =>
    by_cases heP : e.1 = P
    · rw [List.filter_cons, if_neg (by simp [heP])]
      rw [List.find?_cons_of_neg r (by simp [heP]; exact fun h => hne h.symm)]
      exact ih
    · rw [List.filter_cons, if_pos (by simp [heP])]
      by_cases heq : e.1 = q
      · rw [List.find?_cons_of_pos _ (by simp [heq]),
          List.find?_cons_of_pos _ (by simp [heq])]
      · rw [List.find?_cons_of_neg _ (by simp [heq]),
          List.find?_cons_of_neg _ (by simp [heq])]
        exact ih

theorem hasFile_setFile (files : List (FsPath × List Nat)) (dirs faults : List FsPath)
    (P q : FsPath) (b : List Nat)
    (h : hasFile ⟨files, dirs, faults⟩ q = true) :
    hasFile ⟨setFile files P b, dirs, faults⟩ q = true := by
  by_cases hq : q = P
  · subst hq
    rw [hasFile, getFile?_write]
    rfl
  · rw [hasFile, getFile?] at h ⊢
    dsimp only at h ⊢
    rw [setFile, List.find?_cons_of_neg _ (by simp; exact fun hPq => hq hPq.symm)]
    rw [find?_filter_ne files P q hq]
    exact h

theorem pathExists_preserved_write (fs1 : Disk) (p : FsPath) (b : List Nat) (fs' : Disk)
    (hw : writeFile fs1 p b = .ok fs') (q : FsPath) (hq : pathExists fs1 q = true) :
    pathExists fs' q = true := by
  obtain ⟨_, _, _, hfs'⟩ := writeFile_ok _ _ _ _ hw
  subst hfs'
  rw [pathExists, Bool.or_eq_true] at hq ⊢
  rcases hq with h | h
  · left
    exact hasFile_setFile fs1.files fs1.dirs fs1.faults (resolve p) (resolve q) b h
  · right
    exact h

theorem jsonToValue_structured (j : Json) (hs : isDictOrListC (.structured j) = true) :
    jsonToValue j = .structured j := by
  cases j <;> first | rfl | simp [isDictOrListC] at hs

/-- C1 (amended).  For every text string `T` and every file name whose
lower-cased form does not end in one of the binary-read extensions,
provided the name ends in `.json`, or `T` neither starts with the marker
`E::` nor contains a carriage return, `read_file(name)` after a
successful `save_file(name, T)` with `encrypt=false` returns exactly
`T`.  (The exclusions are forced by the counterexample: a binary-table
extension makes `read_file` return the UTF-8 bytes of `T`; a text
starting with `E::` is mistaken for an encrypted payload; and the
text-mode read's universal-newline translation turns a carriage return
of a plain text file into a line feed - only the `.json` path survives
CR, because `json.dumps` escapes it.) -/
theorem C1_text_roundtrip (m : FileSystem) (fs : Disk) (name T : Str)
    (temp ow : Bool) (fs' : Disk)
    (hbin : binSuffix (lowerStr name) = false)
    (hj_or : endsWithL name ".json".data = true ∨
      (startsWithList T markerStr = false ∧ '\r' ∉ T))
    (hsave : save_file m fs name (.str T) temp ow false = (.bool true, fs')) :
    read_file m fs' name temp = .str T :=
  read_after_save_text m fs name T temp ow fs' hbin hj_or hsave

/-- Witness for C1 (amended) at a concrete input. -/
theorem C1_text_roundtrip_witness :
    read_file testFS (save_file testFS disk0 "a.txt".data (.str "hi".data) false false false).2
      "a.txt".data false = .str "hi".data :=
  C1_text_roundtrip testFS disk0 "a.txt".data "hi".data false false _ rfl
    (Or.inr ⟨rfl, by decide⟩) rfl

/-- C1 counterexample: saving the text `"hello"` under the name `a.csv`
succeeds, but `read_file` then opens the file in binary mode (`.csv` is
in the binary-extension table) and returns the UTF-8 bytes of the text,
a `bytes` object different from the saved `str`.  And saving the text
`"a\rb"` under the plain-text name `b.txt` succeeds, but the text-mode
read's universal-newline translation returns `"a\nb"`, not the saved
text. -/
theorem C1_counterexample :
    (save_file testFS disk0 "a.csv".data (.str "hello".data) false false false).1 = .bool true ∧
    read_file testFS
        (save_file testFS disk0 "a.csv".data (.str "hello".data) false false false).2
        "a.csv".data false = .bytes (utf8Encode "hello".data) ∧
    Value.bytes (utf8Encode "hello".data) ≠ Value.str "hello".data ∧
    (save_file testFS disk0 "b.txt".data (.str ['a', '\r', 'b']) false false false).1 =
      .bool true ∧
    read_file testFS
        (save_file testFS disk0 "b.txt".data (.str ['a', '\r', 'b']) false false false).2
        "b.txt".data false = .str ['a', '\n', 'b'] ∧
    (['a', '\n', 'b'] : Str) ≠ ['a', '\r', 'b'] :=
  ⟨rfl, rfl, fun h => Value.noConfusion h, rfl, rfl, by decide⟩

/-- C2 (amended).  After a successful `save_file(name, T, encrypt=true)`,
the raw on-disk content is exactly the 3-byte marker `E::` followed by
the ciphertext of the UTF-8 encoding of `T`; and provided the name does
not carry one of the binary-read extensions, a subsequent
`read_file(name)` returns exactly `T`.  (The proviso is forced by the
counterexample: for a binary-table extension, `read_file` returns the
decrypted payload as bytes, not as the text `T`.) -/
theorem C2_encrypt_roundtrip (m : FileSystem) (fs : Disk) (name T : Str)
    (temp ow : Bool) (fs' : Disk)
    (hsave : save_file m fs name (.str T) temp ow true = (.bool true, fs')) :
    getFile? fs' (resolve (get_path m name temp)) =
      some (markerBytes ++ m.cipher.enc (utf8Encode T)) ∧
    (binSuffix (lowerStr name) = false → read_file m fs' name temp = .str T) := by
  have hB := save_file_ok m fs name (.str T) temp ow true fs' hsave
  obtain ⟨fs1, hmk, hguard, hw⟩ := save_fileB_ok m fs name (.str T) temp ow true fs' hB
  rw [saveBytes_str_enc] at hw
  have hex : pathExists fs' (get_path m name temp) = true :=
    pathExists_after_write fs1 _ _ fs' hw
  have hraw : readRaw fs' (get_path m name temp) =
      .ok (markerBytes ++ m.cipher.enc (utf8Encode T)) :=
    readRaw_after_write fs1 _ _ fs' hw
  constructor
  · obtain ⟨_, _, _, hfs'⟩ := writeFile_ok _ _ _ _ hw
    subst hfs'
    exact getFile?_write _ _ _ _ _
  · intro hbin
    rw [read_file, if_neg (by simp [hex])]
    rw [read_fileB_enc_text m fs' name temp T hraw hbin]

/-- Witness for C2 (amended) at a concrete input. -/
theorem C2_encrypt_roundtrip_witness :
    getFile? (save_file testFS disk0 "b.txt".data (.str "hi".data) false false true).2
        (resolve (get_path testFS "b.txt".data false)) =
      some (markerBytes ++ testCipher.enc (utf8Encode "hi".data)) ∧
    read_file testFS (save_file testFS disk0 "b.txt".data (.str "hi".data) false false true).2
      "b.txt".data false = .str "hi".data := by
  have h := C2_encrypt_roundtrip testFS disk0 "b.txt".data "hi".data false false _ rfl
  exact ⟨h.1, h.2 rfl⟩

/-- C2 counterexample: saving the text `"hi"` encrypted under the name
`b.bin` succeeds and the marker is written, but `read_file` then returns
the decrypted payload as the UTF-8 bytes of `"hi"`, not the text. -/
theorem C2_counterexample :
    (save_file testFS disk0 "b.bin".data (.str "hi".data) false false true).1 = .bool true ∧
    read_file testFS
        (save_file testFS disk0 "b.bin".data (.str "hi".data) false false true).2
        "b.bin".data false = .bytes (utf8Encode "hi".data) ∧
    Value.bytes (utf8Encode "hi".data) ≠ Value.str "hi".data :=
  ⟨rfl, rfl, fun h => Value.noConfusion h⟩

/-- C3 (confirmed).  For every structured JSON value `V` (a mapping or a
sequence), reading a `.json`-suffixed name after a successful
unencrypted `save_file` of `V` under that name returns a value
deep-equal to `V`. -/
theorem C3_structured_roundtrip (m : FileSystem) (fs : Disk) (name : Str) (j : Json)
    (temp ow : Bool) (fs' : Disk)
    (hs : isDictOrListC (.structured j) = true)
    (hname : endsWithL name ".json".data = true)
    (hsave : save_file m fs name (.structured j) temp ow false = (.bool true, fs')) :
    read_file m fs' name temp = .structured j := by
  have hB := save_file_ok m fs name (.structured j) temp ow false fs' hsave
  obtain ⟨fs1, hmk, hguard, hw⟩ := save_fileB_ok m fs name (.structured j) temp ow false fs' hB
  rw [saveBytes_structured m.cipher name j hs] at hw
  have hex : pathExists fs' (get_path m name temp) = true :=
    pathExists_after_write fs1 _ _ fs' hw
  have hraw : readRaw fs' (get_path m name temp) = .ok (utf8Encode (jsonDumps j)) :=
    readRaw_after_write fs1 _ _ fs' hw
  have hbin : binSuffix (lowerStr name) = false := json_not_bin name hname
  rw [read_file, if_neg (by simp [hex])]
  rw [read_fileB_json m fs' name temp j hraw hbin hname]
  dsimp only
  exact jsonToValue_structured j hs

/-- Witness for C3 at a concrete mapping. -/
theorem C3_structured_roundtrip_witness :
    read_file testFS
      (save_file testFS disk0 "cfg.json".data
        (.structured (.obj (.cons "a".data (.int 1) .nil))) false false false).2
      "cfg.json".data false = .structured (.obj (.cons "a".data (.int 1) .nil)) :=
  C3_structured_roundtrip testFS disk0 "cfg.json".data
    (.obj (.cons "a".data (.int 1) .nil)) false false _ rfl rfl rfl

/-- C10 (confirmed).  When `save_file` is called with `encrypt=true` and a
structured (mapping/sequence) value, the payload written is the marker
followed by the ciphertext of the UTF-8 encoding of Python's `str()` of
the value - JSON serialization is bypassed even for `.json`-suffixed
names - and a subsequent `read_file` returns that `str()` representation
as a plain string, not structured data. -/
theorem C10_encrypted_structured_is_str (m : FileSystem) (fs : Disk) (name : Str)
    (j : Json) (temp ow : Bool) (fs' : Disk)
    (_hs : isDictOrListC (.structured j) = true)
    (hname : endsWithL name ".json".data = true)
    (hsave : save_file m fs name (.structured j) temp ow true = (.bool true, fs')) :
    getFile? fs' (resolve (get_path m name temp)) =
      some (markerBytes ++ m.cipher.enc (utf8Encode (pyReprJ j))) ∧
    read_file m fs' name temp = .str (pyReprJ j) := by
  have hB := save_file_ok m fs name (.structured j) temp ow true fs' hsave
  obtain ⟨fs1, hmk, hguard, hw⟩ := save_fileB_ok m fs name (.structured j) temp ow true fs' hB
  rw [saveBytes_structured_enc] at hw
  have hex : pathExists fs' (get_path m name temp) = true :=
    pathExists_after_write fs1 _ _ fs' hw
  have hraw : readRaw fs' (get_path m name temp) =
      .ok (markerBytes ++ m.cipher.enc (utf8Encode (pyReprJ j))) :=
    readRaw_after_write fs1 _ _ fs' hw
  have hbin : binSuffix (lowerStr name) = false := json_not_bin name hname
  constructor
  · obtain ⟨_, _, _, hfs'⟩ := writeFile_ok _ _ _ _ hw
    subst hfs'
    exact getFile?_write _ _ _ _ _
  · rw [read_file, if_neg (by simp [hex])]
    rw [read_fileB_enc_text m fs' name temp (pyReprJ j) hraw hbin]

/-- Witness for C10 at a concrete mapping. -/
theorem C10_encrypted_structured_is_str_witness :
    getFile? (save_file testFS disk0 "d.json".data
        (.structured (.obj (.cons "a".data (.int 1) .nil))) false false true).2
        (resolve (get_path testFS "d.json".data false)) =
      some (markerBytes ++
        testCipher.enc (utf8Encode (pyReprJ (.obj (.cons "a".data (.int 1) .nil))))) ∧
    read_file testFS
      (save_file testFS disk0 "d.json".data
        (.structured (.obj (.cons "a".data (.int 1) .nil))) false false true).2
      "d.json".data false = .str (pyReprJ (.obj (.cons "a".data (.int 1) .nil))) :=
  C10_encrypted_structured_is_str testFS disk0 "d.json".data
    (.obj (.cons "a".data (.int 1) .nil)) false false _ rfl rfl rfl

/-- C4 (amended).  When the target exists (and its parent directory
exists), `save_file` with `overwrite=false` returns the distinct
`"File already exists."` result and leaves the state untouched; in
particular, after a successful `save_file(name, A, overwrite=false)`
with a non-binary-table name (and, unless the name is
`.json`-suffixed, `A` neither starting with the marker nor containing a
carriage return), a second `save_file(name, B, overwrite=false)` returns
that result with the state unchanged, and `read_file(name)` still
yields `A`.  (The provisos on the read-back are those forced by the C1
counterexample, including the universal-newline translation of
text-mode reads.) -/
theorem C4_overwrite_guard (m : FileSystem) (fs : Disk) (name : Str) (temp : Bool) :
    (∀ (content : Content) (enc : Bool),
      pathExists fs ((joinPath (base_path m temp) name).dropLast) = true →
      pathExists fs (joinPath (base_path m temp) name) = true →
      save_file m fs name content temp false enc =
        (.str "File already exists.".data, fs)) ∧
    (∀ (A B : Str) (fs' : Disk),
      binSuffix (lowerStr name) = false →
      (endsWithL name ".json".data = true ∨
        (startsWithList A markerStr = false ∧ '\r' ∉ A)) →
      save_file m fs name (.str A) temp false false = (.bool true, fs') →
      save_file m fs' name (.str B) temp false false =
        (.str "File already exists.".data, fs') ∧
      read_file m fs' name temp = .str A) := by
  constructor
  · intro content enc hd he
    have hmk : makedirsIfNeeded fs ((joinPath (base_path m temp) name).dropLast) = .ok fs := by
      rw [makedirsIfNeeded, if_neg (by simp [hd])]
    have hB : save_fileB m fs name content temp false enc =
        (.ok (.str "File already exists.".data), fs) := by
      rw [save_fileB, hmk]
      dsimp only
      rw [if_pos (by simp [he])]
    rw [save_file, hB]
  · intro A B fs' hbin hj_or hsaveA
    refine ⟨?_, read_after_save_text m fs name A temp false fs' hbin hj_or hsaveA⟩
    have hB := save_file_ok m fs name (.str A) temp false false fs' hsaveA
    obtain ⟨fs1, hmk, hguard, hw⟩ := save_fileB_ok m fs name (.str A) temp false false fs' hB
    obtain ⟨hfiles1, hfaults1, hexd1, hdirs1⟩ := makedirsIfNeeded_ok fs _ fs1 hmk
    have hexd' : pathExists fs' ((joinPath (base_path m temp) name).dropLast) = true :=
      pathExists_preserved_write fs1 _ _ fs' hw _ hexd1
    have hexf' : pathExists fs' (joinPath (base_path m temp) name) = true :=
      pathExists_after_write fs1 _ _ fs' hw
    have hmk' : makedirsIfNeeded fs' ((joinPath (base_path m temp) name).dropLast) = .ok fs' := by
      rw [makedirsIfNeeded, if_neg (by simp [hexd'])]
    have hB' : save_fileB m fs' name (.str B) temp false false =
        (.ok (.str "File already exists.".data), fs') := by
      rw [save_fileB, hmk']
      dsimp only
      rw [if_pos (by simp [hexf'])]
    rw [save_file, hB']

/-- Witness for C4 (amended) at a concrete input. -/
theorem C4_overwrite_guard_witness :
    save_file testFS (save_file testFS disk0 "n.txt".data (.str "x".data) false false false).2
        "n.txt".data (.str "y".data) false false false =
      (.str "File already exists.".data,
        (save_file testFS disk0 "n.txt".data (.str "x".data) false false false).2) ∧
    read_file testFS (save_file testFS disk0 "n.txt".data (.str "x".data) false false false).2
      "n.txt".data false = .str "x".data :=
  (C4_overwrite_guard testFS disk0 "n.txt".data false).2 "x".data "y".data _
    rfl (Or.inr ⟨rfl, by decide⟩) rfl

/-- C4 counterexample: with the name `c.png` the guard behaves as stated
(the second save is refused), but `read_file` does not yield the saved
text `A` - it returns the UTF-8 bytes of `A`, so the claim's conjunction
fails as stated. -/
theorem C4_counterexample :
    (save_file testFS disk0 "c.png".data (.str "x".data) false false false).1 = .bool true ∧
    (save_file testFS (save_file testFS disk0 "c.png".data (.str "x".data) false false false).2
        "c.png".data (.str "y".data) false false false).1 =
      .str "File already exists.".data ∧
    read_file testFS (save_file testFS disk0 "c.png".data (.str "x".data) false false false).2
      "c.png".data false = .bytes (utf8Encode "x".data) ∧
    Value.bytes (utf8Encode "x".data) ≠ Value.str "x".data :=
  ⟨rfl, rfl, rfl, fun h => Value.noConfusion h⟩

/-- C7 (amended).  When `list_files` is asked for a single root
(`list_both_directories=false`), the returned name list excludes `.key`
names regardless of which root was selected: the filter in the
single-root branch is applied to the persistent root exactly as to the
transient one.  (The claim said the persistent-root listing never
filters key files; the counterexample shows it does.) -/
theorem C7_single_root_listing (m : FileSystem) (fs : Disk) (temp sd : Bool)
    (dataC tempAll baseC : List Str)
    (h1 : listdir fs m.storage_data = .ok dataC)
    (h2 : listdir fs m.storage_temp = .ok tempAll)
    (h3 : listdir fs (base_path m temp) = .ok baseC) :
    list_files m fs temp false sd =
      .strList (baseC.filter (fun f => !(endsWithL f ".key".data))) := by
  have hB : list_filesB m fs temp false sd =
      .ok (.strList (baseC.filter (fun f => !(endsWithL f ".key".data)))) := by
    rw [list_filesB, h1]
    dsimp only
    rw [h2]
    dsimp only
    rw [if_pos (by simp), h3]
  rw [list_files, hB]

/-- Witness for C7 (amended) at a concrete input. -/
theorem C7_single_root_listing_witness :
    list_files testFS fsC7 false false false = .strList ["b.txt".data, "temp".data] :=
  (C7_single_root_listing testFS fsC7 false false _ _ _ rfl rfl rfl).trans rfl

/-- C7 counterexample: the persistent root contains `a.key`, yet the
single-root listing of the persistent root (`temp=false`) omits it - the
key filter is applied to the persistent root too, contradicting the
claim that a persistent-root listing never filters key files. -/
theorem C7_counterexample :
    "a.key".data ∈ childNames fsC7 ["data".data] ∧
    list_files testFS fsC7 false false false = .strList ["b.txt".data, "temp".data] ∧
    "a.key".data ∉ ["b.txt".data, "temp".data] :=
  ⟨by decide, rfl, by decide⟩

/-- C5 (amended).  Seven of the eight per-operation entry points
(`save_file`, `read_file`, `delete_file`, `list_files`, `edit_file`,
`clear_storage`, `delete_folder`) catch filesystem failures at the
operation boundary and convert them into descriptive string results;
`search_files` has no such boundary and propagates a failing directory
listing to the caller (exhibited by the counterexample). -/
theorem C5_catch_boundaries (m : FileSystem) (fs : Disk) (name : Str) (content : Content)
    (temp ow enc lb sd : Bool) (dirn : Str) :
    (∀ e fs2, save_fileB m fs name content temp ow enc = (.error e, fs2) →
      save_file m fs name content temp ow enc =
        (.str ("Error saving file: ".data ++ e), fs2)) ∧
    (∀ e, read_fileB m fs name temp = .error e →
      pathExists fs (get_path m name temp) = true →
      read_file m fs name temp = .str ("Error reading file: ".data ++ e)) ∧
    (∀ e fs2, delete_fileB fs (get_path m name temp) = (.error e, fs2) →
      pathExists fs (get_path m name temp) = true →
      delete_file m fs name temp = (.str ("Error deleting file: ".data ++ e), fs2)) ∧
    (∀ e, list_filesB m fs temp lb sd = .error e →
      list_files m fs temp lb sd = .strList ["Error listing files: ".data ++ e]) ∧
    (∃ v fs2, edit_file m fs name content temp enc = (v, fs2)) ∧
    (∀ e fs2, clear_storageB m fs temp = (.error e, fs2) →
      clear_storage m fs temp = (.str ("Error clearing storage: ".data ++ e), fs2)) ∧
    (∀ e fs2, delete_folderB m fs dirn temp = (.error e, fs2) →
      delete_folder m fs dirn temp =
        (.str ("Error deleting folder ".data ++ dirn ++ "/: ".data ++ e), fs2)) := by
  refine ⟨?_, ?_, ?_, ?_, ?_, ?_, ?_⟩
  · intro e fs2 h
    rw [save_file, h]
  · intro e h hex
    rw [read_file, if_neg (by simp [hex]), h]
  · intro e fs2 h hex
    rw [delete_file, if_neg (by simp [hex]), h]
  · intro e h
    rw [list_files, h]
  · exact ⟨_, _, rfl⟩
  · intro e fs2 h
    rw [clear_storage, h]
  · intro e fs2 h
    rw [delete_folder, h]

/-- Witness for C5 (amended): the save boundary converts an injected
`makedirs` failure into the descriptive error string. -/
theorem C5_catch_boundaries_witness :
    save_file testFS fsC5s "d/x.txt".data (.str "v".data) false false false =
      (.str ("Error saving file: ".data ++ "OSError".data), fsC5s) :=
  (C5_catch_boundaries testFS fsC5s "d/x.txt".data (.str "v".data)
    false false false false false "z".data).1 "OSError".data fsC5s rfl

/-- C5 counterexample: `search_files` has no `try/except` - a failing
`os.listdir` in the non-recursive branch propagates out of the call as
an exception instead of being converted to a descriptive string. -/
theorem C5_counterexample :
    search_files testFS fsC5f ["a".data] false false = .error "OSError".data := rfl

/-- C9 (code bug).  `delete_folder` applies no traversal guard: the
argument `../outside` resolves to `/outside`, outside the selected root
`/data`, and the call deletes that directory and its contents while
reporting success - contradicting both the claim and the method's own
documentation ("safely without affecting parent directories"). -/
theorem C9_traversal_deletes_outside :
    resolve (joinPath (base_path testFS false) "../outside".data) = ["outside".data] ∧
    (¬ (resolve (base_path testFS false)) <+:
      resolve (joinPath (base_path testFS false) "../outside".data)) ∧
    delete_folder testFS fsC9 "../outside".data false =
      (.str ("The folder ".data ++ "../outside".data ++
        "/ and all its contents were deleted successfully.".data),
        ⟨[], [[], ["data".data], ["data".data, "temp".data]], []⟩) :=
  ⟨rfl, by decide, rfl⟩

/-! ## Support for the clear_storage analysis -/

theorem splitSlash_no_slash (f : Str) : '/' ∉ f → splitSlash f = [f] := by
  induction f with
  | nil => intro _; rfl
  | cons c t ih =>
    intro h
    have hc : ¬ (c = '/') := fun e => h (by rw [← e]; exact List.mem_cons_self c t)
    rw [splitSlash, if_neg hc, ih (fun m => h (List.mem_cons_of_mem c m))]

theorem joinPath_no_slash (base : FsPath) (f : Str) (hs : '/' ∉ f) :
    joinPath base f = base ++ [f] := by
  unfold joinPath
  split
  · next t => simp at hs
  · rw [splitSlash_no_slash f hs]

theorem resolve_join_clean (base : FsPath) (f : Str) (hc : cleanSeg f) (hs : '/' ∉ f) :
    resolve (joinPath base f) = resolve base ++ [f] := by
  rw [joinPath_no_slash base f hs, resolve_append base f hc]

theorem getLastD_concat_eq (l : List Str) (a d : Str) : (l ++ [a]).getLastD d = a := by
  induction l generalizing d with
  | nil => rfl
  | cons x xs ih => rw [List.cons_append, List.getLastD_cons, ih]

theorem childName_mem (q c : FsPath) (f : Str) (h : childName q c = some f) : f ∈ c := by
  unfold childName at h
  split at h
  · cases hd : c.drop q.length with
    | nil => rw [hd] at h; exact absurd h (by simp)
    | cons a t =>
      rw [hd, List.head?_cons] at h
      have ha : a = f := Option.some.inj h
      subst ha
      exact List.drop_subset q.length c (by rw [hd]; exact List.mem_cons_self a t)
  · exact absurd h (by simp)

theorem childName_eq (q c : FsPath) (f : Str) (h : childName q c = some f) :
    c = q ++ [f] := by
  unfold childName at h
  split at h
  · next hcond =>
    cases hd : c.drop q.length with
    | nil => rw [hd] at h; exact absurd h (by simp)
    | cons a t =>
      rw [hd, List.head?_cons] at h
      have ha : a = f := Option.some.inj h
      have hlen : (c.drop q.length).length = 1 := by
        rw [List.length_drop, hcond.2]
        omega
      rw [hd] at hlen
      have ht : t = [] := by simpa using hlen
      have hsplit : c = c.take q.length ++ c.drop q.length := (List.take_append_drop _ _).symm
      rw [hcond.1, hd, ha, ht] at hsplit
      exact hsplit
  · exact absurd h (by simp)

theorem childName_concat (q : FsPath) (f : Str) : childName q (q ++ [f]) = some f := by
  unfold childName
  rw [if_pos ⟨List.take_left q [f], by simp⟩]
  rw [List.drop_left]
  rfl

theorem childNames_clean (fs : Disk) (rb : FsPath)
    (hwf : ∀ q ∈ fs.files.map Prod.fst, ∀ s ∈ q, cleanSeg s ∧ '/' ∉ s)
    (hwfd : ∀ q ∈ fs.dirs, ∀ s ∈ q, cleanSeg s ∧ '/' ∉ s) :
    ∀ f ∈ childNames fs rb, cleanSeg f ∧ '/' ∉ f := by
  intro f hf
  rw [childNames, List.mem_append] at hf
  rcases hf with hf | hf
  · obtain ⟨e, he, hce⟩ := List.mem_filterMap.mp hf
    exact hwf e.1 (List.mem_map_of_mem _ he) f (childName_mem rb e.1 f hce)
  · obtain ⟨d, hd, hcd⟩ := List.mem_filterMap.mp hf
    exact hwfd d hd f (childName_mem rb d f hcd)

theorem removeFile_ok_inv (fs : Disk) (p : FsPath) (fs2 : Disk)
    (h : removeFile fs p = .ok fs2) :
    fs2 = { fs with files := fs.files.filter (fun e => !(decide (e.1 = resolve p))) } := by
  rw [removeFile] at h
  split at h
  · simp at h
  · split at h
    · simp at h
    · split at h
      · simp at h
      · exact (Except.ok.inj h).symm

theorem removeFile_ok_eq (fs : Disk) (p : FsPath)
    (hf : pathMem (resolve p) fs.faults = false)
    (hd : pathMem (resolve p) fs.dirs = false)
    (hh : hasFile fs (resolve p) = true) :
    removeFile fs p =
      .ok { fs with files := fs.files.filter (fun e => !(decide (e.1 = resolve p))) } := by
  rw [removeFile, if_neg (by rw [hf]; simp), if_neg (by rw [hd]; simp),
    if_neg (by rw [hh]; simp)]

theorem hasFile_filter_ne (files : List (FsPath × List Nat)) (dirs faults : List FsPath)
    (P q : FsPath) (hne : q ≠ P) :
    hasFile ⟨files.filter (fun e => !(decide (e.1 = P))), dirs, faults⟩ q =
      hasFile ⟨files, dirs, faults⟩ q := by
  unfold hasFile getFile?
  dsimp only
  rw [find?_filter_ne files P q hne]

theorem find?_isSome_of_mem {α : Type} (p : α → Bool) (l : List α) (a : α)
    (ha : a ∈ l) (hp : p a = true) : (l.find? p).isSome = true := by
  induction l with
  | nil => cases ha
  | cons x xs ih =>
    by_cases hx : p x = true
    · rw [List.find?_cons_of_pos _ hx]
      rfl
    · rw [List.find?_cons_of_neg _ (by simpa using hx)]
      rcases List.mem_cons.mp ha with rfl | hmem
      · exact absurd hp hx
      · exact ih hmem

theorem hasFile_of_mem (fs : Disk) (q : FsPath) (c : List Nat)
    (h : (q, c) ∈ fs.files) : hasFile fs q = true := by
  rw [hasFile, getFile?]
  cases hf : fs.files.find? (fun e => decide (e.1 = q)) with
  | none =>
    have hs2 := find?_isSome_of_mem (fun e => decide (e.1 = q)) fs.files (q, c) h (by simp)
    rw [hf] at hs2
    exact absurd hs2 (by simp)
  | some e => rfl

theorem clearLoop_key_preserved (base : FsPath) (names : List Str) :
    ∀ (fs : Disk) (p : FsPath) (c : List Nat),
      (∀ f ∈ names, cleanSeg f ∧ '/' ∉ f) →
      (p, c) ∈ fs.files →
      endsWithL (p.getLastD []) ".key".data = true →
      (p, c) ∈ (clearLoop fs base names).2.files := by
  induction names with
  | nil =>
    intro fs p c _ hmem _
    exact hmem
  | cons f rest ih =>
    intro fs p c hcl hmem hkey
    have hclr : ∀ g ∈ rest, cleanSeg g ∧ '/' ∉ g :=
      fun g hg => hcl g (List.mem_cons_of_mem f hg)
    rw [clearLoop]
    by_cases hk : endsWithL f ".key".data = true
    · rw [if_pos hk]
      exact ih fs p c hclr hmem hkey
    · rw [if_neg hk]
      cases hrm : removeFile fs (joinPath base f) with
      | error e => exact hmem
      | ok fs2 =>
        apply ih fs2 p c hclr ?_ hkey
        have hcf := hcl f (List.mem_cons_self f rest)
        have htgt : resolve (joinPath base f) = resolve base ++ [f] :=
          resolve_join_clean base f hcf.1 hcf.2
        rw [removeFile_ok_inv fs (joinPath base f) fs2 hrm]
        refine List.mem_filter.mpr ⟨hmem, ?_⟩
        have hne : p ≠ resolve (joinPath base f) := by
          rw [htgt]
          intro hpe
          rw [hpe, getLastD_concat_eq] at hkey
          exact hk hkey
        simp [hne]

theorem clearLoop_spec (base : FsPath) (names : List Str) :
    ∀ fs : Disk,
      fs.faults = [] →
      (∀ f ∈ names, cleanSeg f ∧ '/' ∉ f) →
      names.Nodup →
      (∀ f ∈ names, pathMem (resolve base ++ [f]) fs.dirs = false) →
      (∀ f ∈ names, endsWithL f ".key".data = false →
        hasFile fs (resolve base ++ [f]) = true) →
      (clearLoop fs base names).1 = .ok () ∧
      (clearLoop fs base names).2.dirs = fs.dirs ∧
      (clearLoop fs base names).2.faults = fs.faults ∧
      (clearLoop fs base names).2.files = fs.files.filter (fun e =>
        names.all (fun f =>
          endsWithL f ".key".data || !(decide (e.1 = resolve base ++ [f])))) := by
  induction names with
  | nil =>
    intro fs _ _ _ _ _
    refine ⟨rfl, rfl, rfl, ?_⟩
    simp [clearLoop]
  | cons f rest ih =>
    intro fs hfa hcl hnd hdirs hpres
    have hcf := hcl f (List.mem_cons_self f rest)
    have hclr : ∀ g ∈ rest, cleanSeg g ∧ '/' ∉ g :=
      fun g hg => hcl g (List.mem_cons_of_mem f hg)
    have hndr : rest.Nodup := (List.nodup_cons.mp hnd).2
    have hfnr : f ∉ rest := (List.nodup_cons.mp hnd).1
    have htgt : resolve (joinPath base f) = resolve base ++ [f] :=
      resolve_join_clean base f hcf.1 hcf.2
    rw [clearLoop]
    by_cases hk : endsWithL f ".key".data = true
    · rw [if_pos hk]
      obtain ⟨h1, h2, h3, h4⟩ := ih fs hfa hclr hndr
        (fun g hg => hdirs g (List.mem_cons_of_mem f hg))
        (fun g hg => hpres g (List.mem_cons_of_mem f hg))
      refine ⟨h1, h2, h3, ?_⟩
      rw [h4]
      apply List.filter_congr
      intro e _
      simp [List.all_cons, hk]
    · rw [if_neg hk]
      have hkf : endsWithL f ".key".data = false := by
        cases hkk : endsWithL f ".key".data
        · rfl
        · exact absurd hkk hk
      have hrm := removeFile_ok_eq fs (joinPath base f)
        (by rw [htgt, hfa]; rfl)
        (by rw [htgt]; exact hdirs f (List.mem_cons_self f rest))
        (by rw [htgt]; exact hpres f (List.mem_cons_self f rest) hkf)
      rw [hrm]
      have hpres2 : ∀ g ∈ rest, endsWithL g ".key".data = false →
          hasFile { fs with
            files := (fs.files.filter (fun e => !(decide (e.1 = resolve (joinPath base f))))) }
            (resolve base ++ [g]) = true := by
        intro g hg hkg
        have hgf : resolve base ++ [g] ≠ resolve base ++ [f] := by
          intro he
          have h2g := List.append_cancel_left he
          have h3g : g = f := by injection h2g
          exact hfnr (h3g ▸ hg)
        have hne2 : resolve base ++ [g] ≠ resolve (joinPath base f) := by
          rw [htgt]
          exact hgf
        exact (hasFile_filter_ne fs.files fs.dirs fs.faults
          (resolve (joinPath base f)) (resolve base ++ [g]) hne2).trans
          (hpres g (List.mem_cons_of_mem f hg) hkg)
      obtain ⟨h1, h2, h3, h4⟩ := ih
        { fs with
          files := (fs.files.filter (fun e => !(decide (e.1 = resolve (joinPath base f))))) }
        hfa hclr hndr
        (fun g hg => hdirs g (List.mem_cons_of_mem f hg))
        hpres2
      refine ⟨h1, h2, h3, ?_⟩
      show (clearLoop
        { fs with
          files := (fs.files.filter (fun e => !(decide (e.1 = resolve (joinPath base f))))) }
        base rest).2.files = _
      rw [h4]
      show (fs.files.filter
        (fun e => !(decide (e.1 = resolve (joinPath base f))))).filter _ = _
      rw [List.filter_filter]
      apply List.filter_congr
      intro e _
      rw [htgt]
      simp [List.all_cons, hkf, Bool.and_comm]

/-- C6 (amended).  (a) Key files (entries whose last path segment ends in
`.key`) anywhere on a well-formed disk are never removed by
`clear_storage`.  (b) When the selected root exists, is not faulted, and
contains only regular files (no sub-directories), `clear_storage` reports
success and removes exactly the non-key entries of that root; a root
containing a sub-directory instead makes the operation fail partway (see
the counterexample), because `os.remove` cannot delete directories - so
the claim's "removes every entry" holds only for file entries. -/
theorem C6_clear_storage (m : FileSystem) (fs : Disk) (temp : Bool) :
    (∀ (p : FsPath) (c : List Nat),
      (∀ q ∈ fs.files.map Prod.fst, ∀ s ∈ q, cleanSeg s ∧ '/' ∉ s) →
      (∀ q ∈ fs.dirs, ∀ s ∈ q, cleanSeg s ∧ '/' ∉ s) →
      (p, c) ∈ fs.files →
      endsWithL (p.getLastD []) ".key".data = true →
      (p, c) ∈ (clear_storage m fs temp).2.files) ∧
    (fs.faults = [] →
      pathMem (resolve (base_path m temp)) fs.dirs = true →
      (∀ d ∈ fs.dirs, childName (resolve (base_path m temp)) d = none) →
      (fs.files.map Prod.fst).Nodup →
      (∀ q ∈ fs.files.map Prod.fst, ∀ s ∈ q, cleanSeg s ∧ '/' ∉ s) →
      (clear_storage m fs temp).1 =
        .str ("Cleared storage: ".data ++ renderPath (base_path m temp)) ∧
      (clear_storage m fs temp).2.files = fs.files.filter (fun e =>
        (childNames fs (resolve (base_path m temp))).all (fun f =>
          endsWithL f ".key".data ||
            !(decide (e.1 = resolve (base_path m temp) ++ [f]))))) := by
  constructor
  · intro p c hwf hwfd hmem hkey
    cases hld2 : listdir fs (base_path m temp) with
    | error e =>
      have hB : clear_storageB m fs temp = (.error e, fs) := by
        rw [clear_storageB, hld2]
      rw [clear_storage, hB]
      exact hmem
    | ok entries =>
      have hB : clear_storageB m fs temp = clearLoop fs (base_path m temp) entries := by
        rw [clear_storageB, hld2]
      have hent : entries = childNames fs (resolve (base_path m temp)) := by
        rw [listdir] at hld2
        split at hld2
        · simp at hld2
        · split at hld2
          · simp at hld2
          · exact (Except.ok.inj hld2).symm
      have hcl : ∀ f ∈ entries, cleanSeg f ∧ '/' ∉ f := by
        rw [hent]
        exact childNames_clean fs (resolve (base_path m temp)) hwf hwfd
      have hpk := clearLoop_key_preserved (base_path m temp) entries fs p c hcl hmem hkey
      rcases hlp : clearLoop fs (base_path m temp) entries with ⟨r, fs2⟩
      rw [hlp] at hpk
      rw [clear_storage, hB, hlp]
      cases r
      · exact hpk
      · exact hpk
  · intro hfa hroot hnochild hnd hwf
    have hld : listdir fs (base_path m temp) =
        .ok (childNames fs (resolve (base_path m temp))) := by
      rw [listdir, if_neg (by rw [hfa]; simp [pathMem]), if_neg (by rw [hroot]; simp)]
    have hdn : fs.dirs.filterMap (fun d => childName (resolve (base_path m temp)) d) = [] := by
      rw [List.filterMap_eq_nil_iff]
      exact hnochild
    have hchn : childNames fs (resolve (base_path m temp)) =
        fs.files.filterMap (fun e => childName (resolve (base_path m temp)) e.1) := by
      rw [childNames, hdn, List.append_nil]
    have hclean : ∀ f ∈ childNames fs (resolve (base_path m temp)),
        cleanSeg f ∧ '/' ∉ f := by
      intro f hf
      rw [hchn] at hf
      obtain ⟨e, he, hce⟩ := List.mem_filterMap.mp hf
      exact hwf e.1 (List.mem_map_of_mem _ he) f (childName_mem _ _ _ hce)
    have hnn : (childNames fs (resolve (base_path m temp))).Nodup := by
      rw [hchn]
      have hre : fs.files.filterMap (fun e => childName (resolve (base_path m temp)) e.1) =
          (fs.files.map Prod.fst).filterMap
            (fun q => childName (resolve (base_path m temp)) q) := by
        rw [List.filterMap_map]
        rfl
      rw [hre]
      refine List.Nodup.filterMap ?_ hnd
      intro q q' b hb hb'
      rw [childName_eq _ _ _ (Option.mem_def.mp hb),
        childName_eq _ _ _ (Option.mem_def.mp hb')]
    have hdt : ∀ f ∈ childNames fs (resolve (base_path m temp)),
        pathMem (resolve (base_path m temp) ++ [f]) fs.dirs = false := by
      intro f _
      cases hpm : pathMem (resolve (base_path m temp) ++ [f]) fs.dirs
      · rfl
      · exfalso
        rw [pathMem, List.any_eq_true] at hpm
        obtain ⟨d, hd2, hde⟩ := hpm
        have hdeq : d = resolve (base_path m temp) ++ [f] := of_decide_eq_true hde
        have hcn := hnochild d hd2
        rw [hdeq, childName_concat] at hcn
        exact absurd hcn (by simp)
    have hprs : ∀ f ∈ childNames fs (resolve (base_path m temp)),
        endsWithL f ".key".data = false →
        hasFile fs (resolve (base_path m temp) ++ [f]) = true := by
      intro f hf _
      rw [hchn] at hf
      obtain ⟨e, he, hce⟩ := List.mem_filterMap.mp hf
      have heq := childName_eq _ _ _ hce
      rw [← heq]
      exact hasFile_of_mem fs e.1 e.2 he
    obtain ⟨h1, h2, h3, h4⟩ := clearLoop_spec (base_path m temp)
      (childNames fs (resolve (base_path m temp))) fs hfa hclean hnn hdt hprs
    have hB : clear_storageB m fs temp =
        clearLoop fs (base_path m temp) (childNames fs (resolve (base_path m temp))) := by
      rw [clear_storageB, hld]
    rcases hlp : clearLoop fs (base_path m temp)
      (childNames fs (resolve (base_path m temp))) with ⟨r, fs2⟩
    rw [hlp] at h1 h4
    have hr : r = Except.ok () := h1
    subst hr
    constructor
    · rw [clear_storage, hB, hlp]
    · rw [clear_storage, hB, hlp]
      exact h4

/-- Witness for C6 (amended): clearing the transient root keeps the key
file, reports success, and removes exactly the two non-key files. -/
theorem C6_clear_storage_witness :
    (["data".data, "temp".data, "k.key".data], ([9] : List Nat)) ∈
      (clear_storage testFS fsC6 true).2.files ∧
    (clear_storage testFS fsC6 true).1 =
      .str ("Cleared storage: ".data ++ "/data/temp".data) ∧
    (clear_storage testFS fsC6 true).2.files =
      [(["data".data, "temp".data, "k.key".data], [9])] := by
  obtain ⟨ha, hb⟩ := (C6_clear_storage testFS fsC6 true).2 rfl (by decide) (by decide)
    (by decide) (by decide)
  exact ⟨(C6_clear_storage testFS fsC6 true).1 _ _ (by decide) (by decide) (by decide)
    (by decide), ha, hb.trans (by decide)⟩

/-- C6 counterexample: with a sub-directory in the root, `clear_storage`
does not remove every non-key entry - `os.remove` fails on the first
directory entry, the operation returns an error string, and the state is
left unchanged (the sub-directory and its file survive). -/
theorem C6_counterexample :
    (clear_storage testFS fsC6c false).1 =
      .str ("Error clearing storage: ".data ++ "IsADirectoryError".data) ∧
    (clear_storage testFS fsC6c false).2 = fsC6c ∧
    pathMem ["data".data, "sub".data] fsC6c.dirs = true ∧
    endsWithL "sub".data ".key".data = false :=
  ⟨rfl, rfl, by decide, by decide⟩

/-! ## Support for the search_files analysis -/

theorem map_congr_mem {α β : Type} (l : List α) (f g : α → β)
    (h : ∀ a ∈ l, f a = g a) : l.map f = l.map g := by
  induction l with
  | nil => rfl
  | cons a r ih =>
    rw [List.map_cons, List.map_cons, h a (List.mem_cons_self a r),
      ih (fun b hb => h b (List.mem_cons_of_mem a hb))]

theorem filter_eq_nil_of_not {α : Type} (p : α → Bool) (l : List α)
    (h : ∀ a ∈ l, p a = false) : l.filter p = [] := by
  induction l with
  | nil => rfl
  | cons a r ih =>
    rw [List.filter_cons, if_neg (by rw [h a (List.mem_cons_self a r)]; simp)]
    exact ih (fun b hb => h b (List.mem_cons_of_mem a hb))

theorem nodup_filter_eq_singleton (l : List Str) (k : Str) :
    k ∈ l → l.Nodup → l.filter (fun n => decide (n = k)) = [k] := by
  induction l with
  | nil => intro hk _; cases hk
  | cons a r ih =>
    intro hk hnd
    rw [List.filter_cons]
    rcases List.mem_cons.mp hk with heq | hmem
    · subst heq
      rw [if_pos (by simp)]
      rw [filter_eq_nil_of_not _ r (fun b hb => decide_eq_false
        (fun he => (List.nodup_cons.mp hnd).1 (by rw [← he]; exact hb)))]
    · have hane : (decide (a = k)) = false := decide_eq_false
        (fun he => (List.nodup_cons.mp hnd).1 (by rw [he]; exact hmem))
      rw [if_neg (by rw [hane]; simp)]
      exact ih hmem (List.nodup_cons.mp hnd).2

theorem foldl_dedup_disjoint (l : List Str) :
    ∀ acc : List Str, (∀ x ∈ l, x ∉ acc) → l.Nodup →
      l.foldl (fun acc x => if x ∈ acc then acc else acc ++ [x]) acc = acc ++ l := by
  induction l with
  | nil => intro acc _ _; simp
  | cons a r ih =>
    intro acc hdisj hnd
    have hna := (List.nodup_cons.mp hnd).1
    have hdisj2 : ∀ x ∈ r, x ∉ acc ++ [a] := by
      intro x hx hmem
      rcases List.mem_append.mp hmem with h1 | h2
      · exact hdisj x (List.mem_cons_of_mem a hx) h1
      · have hxa : x = a := by simpa using h2
        exact hna (hxa ▸ hx)
    rw [List.foldl_cons, if_neg (hdisj a (List.mem_cons_self a r)),
      ih (acc ++ [a]) hdisj2 (List.nodup_cons.mp hnd).2]
    simp

theorem dedupKeys_of_nodup (l : List Str) (h : l.Nodup) : dedupKeys l = l := by
  rw [dedupKeys, foldl_dedup_disjoint l [] (by simp) h]
  simp

theorem addMatch_map (frags : List Str) (w : Str → List Str) (name p : Str) :
    addMatch (frags.map (fun k => (k, w k))) name p =
      frags.map (fun k => (k, w k ++ if k = name then [p] else [])) := by
  rw [addMatch, List.map_map]
  refine congrArg (fun F => List.map F frags) (funext (fun k => ?_))
  by_cases hk : k = name
  · simp [Function.comp, hk]
  · simp [Function.comp, hk]

theorem innerFold_spec (pf : Str × Str) :
    ∀ (ns frags : List Str) (w : Str → List Str),
      List.foldl (fun acc2 name =>
          if containsL (lowerStr pf.2) (lowerStr name) then addMatch acc2 name pf.1
          else acc2)
        (frags.map (fun k => (k, w k))) ns =
      frags.map (fun k => (k, w k ++
        (if containsL (lowerStr pf.2) (lowerStr k) then
          (ns.filter (fun n => decide (n = k))).map (fun _ => pf.1)
        else []))) := by
  intro ns
  induction ns with
  | nil =>
    intro frags w
    rw [List.foldl_nil]
    refine congrArg (fun F => List.map F frags) (funext (fun k => ?_))
    simp
  | cons n ns ih =>
    intro frags w
    rw [List.foldl_cons]
    by_cases hc : containsL (lowerStr pf.2) (lowerStr n) = true
    · rw [if_pos hc, addMatch_map frags w n pf.1,
        ih frags (fun k => w k ++ if k = n then [pf.1] else [])]
      refine congrArg (fun F => List.map F frags) (funext (fun k => ?_))
      by_cases hk : k = n
      · subst hk
        simp [hc, List.filter_cons, List.append_assoc]
      · have hnk : ¬ (n = k) := fun h => hk h.symm
        simp [hk, hnk, List.filter_cons]
    · rw [if_neg hc, ih frags w]
      refine congrArg (fun F => List.map F frags) (funext (fun k => ?_))
      by_cases hk : k = n
      · subst hk
        have hcf : containsL (lowerStr pf.2) (lowerStr k) = false := by
          cases hcc : containsL (lowerStr pf.2) (lowerStr k)
          · rfl
          · exact absurd hcc hc
        simp [hcf]
      · have hnk : ¬ (n = k) := fun h => hk h.symm
        simp [hnk, List.filter_cons]

theorem searchFilesLoop_spec (frags : List Str) (hnd : frags.Nodup) :
    ∀ (pairs : List (Str × Str)) (w : Str → List Str),
      searchFilesLoop (frags.map (fun k => (k, w k))) frags pairs =
        frags.map (fun k => (k, w k ++ searchHits pairs k)) := by
  intro pairs
  induction pairs with
  | nil =>
    intro w
    rw [searchFilesLoop, List.foldl_nil]
    refine congrArg (fun F => List.map F frags) (funext (fun k => ?_))
    simp [searchHits]
  | cons pf rest ih =>
    intro w
    have hstep : searchFilesLoop (frags.map (fun k => (k, w k))) frags (pf :: rest) =
        searchFilesLoop (List.foldl (fun acc2 name =>
          if containsL (lowerStr pf.2) (lowerStr name) then addMatch acc2 name pf.1
          else acc2) (frags.map (fun k => (k, w k))) frags) frags rest := rfl
    rw [hstep, innerFold_spec pf frags frags w,
      ih (fun k => w k ++
        (if containsL (lowerStr pf.2) (lowerStr k) then
          (frags.filter (fun n => decide (n = k))).map (fun _ => pf.1)
        else []))]
    apply map_congr_mem
    intro k hk
    rw [nodup_filter_eq_singleton frags k hk hnd]
    by_cases hC : containsL (lowerStr pf.2) (lowerStr k) = true
    · simp [hC, searchHits, List.filter_cons, List.append_assoc]
    · have hCf : containsL (lowerStr pf.2) (lowerStr k) = false := by
        cases hcc : containsL (lowerStr pf.2) (lowerStr k)
        · rfl
        · exact absurd hcc hC
      simp [hCf, searchHits, List.filter_cons]

/-- C8 (amended).  For distinct query fragments, `search_files` matches
each fragment case-insensitively as a substring against every ENTRY name
- file or sub-directory - listed directly in the selected root
(non-recursive), or against every file name in the whole subtree
(recursive), returning per fragment the ordered matching joined paths or
the not-found sentinel.  (The claim said only FILE names are candidates
in the non-recursive mode; the counterexample shows a sub-directory name
is matched too, because `os.listdir` returns directories as well.) -/
theorem C8_search_characterization (m : FileSystem) (fs : Disk) (frags : List Str)
    (temp recursive : Bool) (entries : List Str)
    (hnd : frags.Nodup)
    (hlist : recursive = false → listdir fs (base_path m temp) = .ok entries) :
    search_files m fs frags temp recursive = .ok (.searchRes (frags.map (fun k =>
      (k,
        if searchHits (if recursive then walkFilePairs fs (base_path m temp)
            else entries.map (fun f => (renderPath (joinPath (base_path m temp) f), f))) k
          = [] then
          Found.notFound
        else
          Found.paths (searchHits (if recursive then walkFilePairs fs (base_path m temp)
            else entries.map (fun f => (renderPath (joinPath (base_path m temp) f), f)))
            k))))) := by
  cases recursive with
  | false =>
    have hld := hlist rfl
    have hbody : search_files m fs frags temp false =
        (match listdir fs (base_path m temp) with
         | .error e => .error e
         | .ok files => .ok (finishSearch (searchFilesLoop
             ((dedupKeys frags).map (fun name => (name, ([] : List Str)))) frags
             (files.map (fun f => (renderPath (joinPath (base_path m temp) f), f)))))) :=
      rfl
    rw [hbody, hld]
    show Except.ok (finishSearch (searchFilesLoop
        ((dedupKeys frags).map (fun name => (name, ([] : List Str)))) frags
        (entries.map (fun f => (renderPath (joinPath (base_path m temp) f), f))))) = _
    rw [dedupKeys_of_nodup frags hnd,
      searchFilesLoop_spec frags hnd
        (entries.map (fun f => (renderPath (joinPath (base_path m temp) f), f)))
        (fun _ => [])]
    rw [finishSearch, List.map_map]
    refine congrArg (fun r => Except.ok (Value.searchRes r)) ?_
    refine congrArg (fun F => List.map F frags) (funext (fun k => ?_))
    simp [Function.comp]
  | true =>
    have hbody : search_files m fs frags temp true =
        .ok (finishSearch (searchFilesLoop
          ((dedupKeys frags).map (fun name => (name, ([] : List Str)))) frags
          (walkFilePairs fs (base_path m temp)))) := rfl
    rw [hbody, dedupKeys_of_nodup frags hnd,
      searchFilesLoop_spec frags hnd (walkFilePairs fs (base_path m temp)) (fun _ => [])]
    rw [finishSearch, List.map_map]
    refine congrArg (fun r => Except.ok (Value.searchRes r)) ?_
    refine congrArg (fun F => List.map F frags) (funext (fun k => ?_))
    simp [Function.comp]

/-- Witness for C8 (amended): the spec example evaluates as claimed, and
a fragment with no match yields the sentinel. -/
theorem C8_search_characterization_witness :
    search_files testFS fsC8 ["a".data, "zzz".data] false false =
      .ok (.searchRes [("a".data, .paths ["/data/a.txt".data, "/data/ab.txt".data]),
        ("zzz".data, .notFound)]) :=
  (C8_search_characterization testFS fsC8 ["a".data, "zzz".data] false false
    (childNames fsC8 ["data".data]) (by decide) (fun _ => rfl)).trans rfl

/-- C8 counterexample: with no file at all in the root, searching for
`a` matches the sub-directory entry `abc` and returns its path, whereas
the claimed files-only matching returns the not-found sentinel. -/
theorem C8_counterexample :
    search_files testFS fsC8d ["a".data] false false =
      .ok (.searchRes [("a".data, .paths ["/data/abc".data])]) ∧
    search_files_claimed testFS fsC8d ["a".data] false =
      .ok (.searchRes [("a".data, .notFound)]) ∧
    Found.paths ["/data/abc".data] ≠ Found.notFound :=
  ⟨rfl, rfl, fun h => Found.noConfusion h⟩

